import Mathlib

/-!
# D3D9 HLSL program: constant reflection and microcode cache codec

A shallow embedding of `RenderSystems/Direct3D9/src/OgreD3D9HLSLProgram.cpp`:

* `populateDef`, `processParamElement` and the constant loop of `compileMicrocode`
  (the reflection walk that flattens the compiler's constant table);
* `addMicrocodeToCache` and `getMicrocodeFromCache` (the cache record codec);
* `buildConstantDefinitions` and `setTarget`.

Engine declarations that the file uses but that live in headers outside it
(`GpuConstantDefinition`, `GpuLogicalIndexUse`, the memory stream, `std::map`)
are modelled in the first sections; each such definition says so.

Conventions. A C++ `String` is a list of bytes. A `std::map` is its list of
entries in key order. Sizes and indices are natural numbers; the byte images
written to the cache reduce them to the width of their C++ type, and the statements
about the sizes and offsets of the walk assume them within the range of that type
(`SizesInRange`). The statements about the walk assume that its one division is
defined (`QuotientDefined`). Allocation (`D3DXCreateBuffer`, `String::resize`,
`createMicrocode`) is taken to succeed.
-/

namespace Ogre

/-! ## Bytes and strings -/

/-- One byte of a buffer or of a `String`. -/
abbrev Byte := Fin 256

/-- The engine's `String` (a `std::string`): a sequence of bytes. -/
abbrev OgreString := List Byte

/-- The bytes of an ASCII literal, for writing names in examples. -/
def lit (s : String) : OgreString := s.toList.map (fun c => Fin.ofNat c.toNat)

/-- Modelled from the spec: `StringUtil::endsWith(str, pattern, false)` of the engine's
string utilities, which are not part of this file. The spec calls the test "a trailing
`[0]` suffix": the pattern is non-empty, not longer than the string, and equal to the
string's last bytes. The third argument (case folding) is `false` at the only call. -/
def StringUtil.endsWith (str pattern : OgreString) : Bool :=
  !pattern.isEmpty && decide (pattern.length ≤ str.length) &&
    decide (str.drop (str.length - pattern.length) = pattern)

/-! ## `std::map` -/

/-- The operation `std::map::emplace` on the entries in key order: a key already present keeps its
entry, a new key is inserted at its place in the order. -/
def emplace {κ ν : Type} [LinearOrder κ] (k : κ) (v : ν) : List (κ × ν) → List (κ × ν)
  | [] => [(k, v)]
  | e :: t =>
    if k = e.1 then e :: t
    else if k < e.1 then (k, v) :: e :: t
    else e :: emplace k v t

/-- The operation `std::map::find`: the value stored under a key, `none` standing for `end()`. -/
def find {κ ν : Type} [DecidableEq κ] (k : κ) : List (κ × ν) → Option ν
  | [] => none
  | e :: t => if k = e.1 then some e.2 else find k t

/-- The keys of a map, in iteration order. -/
def keys {κ ν : Type} (m : List (κ × ν)) : List κ := m.map Prod.fst

/-- The entry lists that are `std::map` values: keys strictly increasing. -/
def IsMap {κ ν : Type} [LinearOrder κ] (m : List (κ × ν)) : Prop :=
  m.Pairwise (fun a b => a.1 < b.1)

/-! ## Engine parameter types -/

/-- Modelled from the spec: the base kinds of `BaseConstantType` that the
logical-to-physical map records here ("numeric kind float/int"). -/
inductive BaseConstantType where
  | BCT_FLOAT
  | BCT_INT
  deriving DecidableEq, Repr

/-- Modelled from the spec: `GpuConstantType` (engine header, not part of this file),
the "closed set of scalar/vector/matrix kinds for float and int, with fixed component
counts 1-4 and matrix shapes up to 4x4", and `GCT_UNKNOWN` for a type left unset. -/
inductive GpuConstantType where
  | GCT_FLOAT1 | GCT_FLOAT2 | GCT_FLOAT3 | GCT_FLOAT4
  | GCT_MATRIX_2X2 | GCT_MATRIX_2X3 | GCT_MATRIX_2X4
  | GCT_MATRIX_3X2 | GCT_MATRIX_3X3 | GCT_MATRIX_3X4
  | GCT_MATRIX_4X2 | GCT_MATRIX_4X3 | GCT_MATRIX_4X4
  | GCT_INT1 | GCT_INT2 | GCT_INT3 | GCT_INT4
  | GCT_UNKNOWN
  deriving DecidableEq, Repr

open GpuConstantType BaseConstantType

/-- Modelled from the spec: `GPV_GLOBAL`, the variability "scope=global". -/
def GPV_GLOBAL : Nat := 1

/-- Modelled from the spec: `GpuConstantDefinition` (engine header, not part of this
file): "semantic type tag, array length, per-element storage size, logical index,
physical byte offset", and the variability mask the header keeps beside them. -/
structure GpuConstantDefinition where
  constType : GpuConstantType
  physicalIndex : Nat
  logicalIndex : Nat
  elementSize : Nat
  arraySize : Nat
  variability : Nat
  deriving DecidableEq, Repr

/-- Modelled from the spec: the default constructor of `GpuConstantDefinition`: type
unset, physical index the largest `size_t`, logical index 0, element size 0, array
size 1, global variability. -/
def GpuConstantDefinition.init : GpuConstantDefinition :=
  { constType := GCT_UNKNOWN, physicalIndex := 2 ^ 64 - 1, logicalIndex := 0,
    elementSize := 0, arraySize := 1, variability := GPV_GLOBAL }

/-- Modelled from the spec: `GpuConstantDefinition::getElementSize(type, true)` (engine
header, not part of this file), the padded per-type size. The spec fixes 8, 12 and 16
units for matrices of 2, 3 and 4 rows, one full 4-component register (4 units) per row.
For the scalar and vector types, and a type left unset, the spec gives no rule: its
worked example shows 1 for a FLOAT4, the call site in `populateDef` says "D3D9 pads to
4 elements". The value here is the call site's 4, one full register. The general
statements of this file about scalars and vectors hold whatever that value is; only
their worked instances evaluate it. -/
def getElementSize : GpuConstantType → Nat
  | GCT_MATRIX_2X2 | GCT_MATRIX_2X3 | GCT_MATRIX_2X4 => 8
  | GCT_MATRIX_3X2 | GCT_MATRIX_3X3 | GCT_MATRIX_3X4 => 12
  | GCT_MATRIX_4X2 | GCT_MATRIX_4X3 | GCT_MATRIX_4X4 => 16
  | _ => 4

/-- Modelled from the spec: `GpuConstantDefinition::isFloat()`: the float scalar,
vector and matrix types are float, the others are not. -/
def GpuConstantDefinition.isFloat (d : GpuConstantDefinition) : Bool :=
  match d.constType with
  | GCT_INT1 | GCT_INT2 | GCT_INT3 | GCT_INT4 | GCT_UNKNOWN => false
  | _ => true

/-- Modelled from the spec: `GpuLogicalIndexUse`, an entry of the logical-to-physical
map: "(physical byte offset, size, scope=global, numeric kind float/int)". -/
structure GpuLogicalIndexUse where
  physicalIndex : Nat
  currentSize : Nat
  variability : Nat
  baseType : BaseConstantType
  deriving DecidableEq, Repr

/-- Modelled from the spec: `GpuLogicalBufferStruct`, the logical-to-physical map and
its running physical buffer size. -/
structure GpuLogicalBufferStruct where
  map : List (Nat × GpuLogicalIndexUse)
  bufferSize : Nat
  deriving DecidableEq, Repr

/-- Modelled from the spec: `GpuNamedConstants`, the named constant definitions handed
to the parameter system, with their buffer size. -/
structure GpuNamedConstants where
  map : List (OgreString × GpuConstantDefinition)
  bufferSize : Nat
  deriving DecidableEq, Repr

/-! ## The compiler's constant table -/

/-- The parameter classes of `D3DXPARAMETER_CLASS`. -/
inductive D3DXPARAMETER_CLASS where
  | D3DXPC_SCALAR | D3DXPC_VECTOR | D3DXPC_MATRIX_ROWS | D3DXPC_MATRIX_COLUMNS
  | D3DXPC_OBJECT | D3DXPC_STRUCT
  deriving DecidableEq, Repr

/-- The parameter types of `D3DXPARAMETER_TYPE`. -/
inductive D3DXPARAMETER_TYPE where
  | D3DXPT_VOID | D3DXPT_BOOL | D3DXPT_INT | D3DXPT_FLOAT | D3DXPT_STRING
  | D3DXPT_TEXTURE | D3DXPT_TEXTURE1D | D3DXPT_TEXTURE2D | D3DXPT_TEXTURE3D
  | D3DXPT_TEXTURECUBE
  | D3DXPT_SAMPLER | D3DXPT_SAMPLER1D | D3DXPT_SAMPLER2D | D3DXPT_SAMPLER3D
  | D3DXPT_SAMPLERCUBE
  | D3DXPT_PIXELSHADER | D3DXPT_VERTEXSHADER | D3DXPT_PIXELFRAGMENT
  | D3DXPT_VERTEXFRAGMENT | D3DXPT_UNSUPPORTED
  deriving DecidableEq, Repr

open D3DXPARAMETER_CLASS D3DXPARAMETER_TYPE

/-- The fields of `D3DXCONSTANT_DESC` that the program reads. `StructMembers` is the
number of member nodes of the node that carries the description; the field `Type`
is spelt `Type_`. -/
structure D3DXCONSTANT_DESC where
  Name : OgreString
  RegisterIndex : Nat
  RegisterCount : Nat
  Class : D3DXPARAMETER_CLASS
  Type_ : D3DXPARAMETER_TYPE
  Rows : Nat
  Columns : Nat
  Elements : Nat
  deriving DecidableEq, Repr

/-- A node of the constant table: its description and the member nodes that
`GetConstant(node, i)` returns for `i < StructMembers`, in declaration order. -/
inductive ConstantNode where
  | mk (desc : D3DXCONSTANT_DESC) (members : List ConstantNode)

/-- The description of a node. -/
def ConstantNode.desc : ConstantNode → D3DXCONSTANT_DESC
  | .mk d _ => d

/-! ## The program object -/

/-- The members of `D3D9HLSLProgram` that the reflection walk and the cache codec
read and write. -/
structure D3D9HLSLProgram where
  mMicroCode : List Byte
  mParametersMap : List (OgreString × GpuConstantDefinition)
  mParametersMapSizeAsBuffer : Nat
  mLogicalToPhysical : GpuLogicalBufferStruct
  mConstantDefs : GpuNamedConstants
  deriving DecidableEq, Repr

/-- The program after construction: no microcode, no parameters, a size estimate of 0
and empty mapping structures. -/
def D3D9HLSLProgram.init : D3D9HLSLProgram :=
  { mMicroCode := [], mParametersMap := [], mParametersMapSizeAsBuffer := 0,
    mLogicalToPhysical := { map := [], bufferSize := 0 },
    mConstantDefs := { map := [], bufferSize := 0 } }

/-- The value of `sizeof(size_t)`, in bytes (a 64-bit build). -/
def sizeofSizeT : Nat := 8

/-- The value of `sizeof(GpuConstantDefinition)`, in bytes: two `size_t` fields, three
32-bit fields, a 16-bit field and two bytes of tail padding. -/
def sizeofGpuConstantDefinition : Nat := 32

/-! ## The reflection walk -/

/-- The function `D3D9HLSLProgram::populateDef`: the array size, the type and the element size of a
definition from a constant description. A `switch` with no matching case leaves the
definition as it was. `RegisterCount / Elements` is the unsigned quotient; D3DX reports
`Elements >= 1`. For `Elements = 0` the source divides by zero and returns nothing,
while the quotient here is 0 and selects no case: every statement of this file that
reaches the division assumes that `Elements` is not 0. -/
def populateDef (d3dDesc : D3DXCONSTANT_DESC) (defn : GpuConstantDefinition) :
    GpuConstantDefinition :=
  let defn := { defn with arraySize := d3dDesc.Elements }
  let defn :=
    match d3dDesc.Type_ with
    | D3DXPT_INT =>
      match d3dDesc.Columns with
      | 1 => { defn with constType := GCT_INT1 }
      | 2 => { defn with constType := GCT_INT2 }
      | 3 => { defn with constType := GCT_INT3 }
      | 4 => { defn with constType := GCT_INT4 }
      | _ => defn
    | D3DXPT_FLOAT =>
      match d3dDesc.Class with
      | D3DXPC_MATRIX_COLUMNS | D3DXPC_MATRIX_ROWS =>
        let firstDim := d3dDesc.RegisterCount / d3dDesc.Elements
        let secondDim :=
          if d3dDesc.Class = D3DXPC_MATRIX_ROWS then d3dDesc.Columns else d3dDesc.Rows
        match firstDim with
        | 2 =>
          match secondDim with
          | 2 => { defn with constType := GCT_MATRIX_2X2, elementSize := 8 }
          | 3 => { defn with constType := GCT_MATRIX_2X3, elementSize := 8 }
          | 4 => { defn with constType := GCT_MATRIX_2X4, elementSize := 8 }
          | _ => defn
        | 3 =>
          match secondDim with
          | 2 => { defn with constType := GCT_MATRIX_3X2, elementSize := 12 }
          | 3 => { defn with constType := GCT_MATRIX_3X3, elementSize := 12 }
          | 4 => { defn with constType := GCT_MATRIX_3X4, elementSize := 12 }
          | _ => defn
        | 4 =>
          match secondDim with
          | 2 => { defn with constType := GCT_MATRIX_4X2, elementSize := 16 }
          | 3 => { defn with constType := GCT_MATRIX_4X3, elementSize := 16 }
          | 4 => { defn with constType := GCT_MATRIX_4X4, elementSize := 16 }
          | _ => defn
        | _ => defn
      | D3DXPC_SCALAR | D3DXPC_VECTOR =>
        match d3dDesc.Columns with
        | 1 => { defn with constType := GCT_FLOAT1 }
        | 2 => { defn with constType := GCT_FLOAT2 }
        | 3 => { defn with constType := GCT_FLOAT3 }
        | 4 => { defn with constType := GCT_FLOAT4 }
        | _ => defn
      | _ => defn
    | _ => defn
  { defn with elementSize := getElementSize defn.constType }

/-- The test `desc.Type == D3DXPT_FLOAT || desc.Type == D3DXPT_INT ||
desc.Type == D3DXPT_BOOL` of `processParamElement`. -/
def isConstantType (t : D3DXPARAMETER_TYPE) : Bool :=
  t = D3DXPT_FLOAT || t = D3DXPT_INT || t = D3DXPT_BOOL

/-- The definition that `processParamElement` computes for a float/int/bool constant
when the running physical buffer size is `bufferSize`: logical index from the register
index, type and sizes from `populateDef`, physical index `bufferSize*4`. -/
def leafDef (desc : D3DXCONSTANT_DESC) (bufferSize : Nat) : GpuConstantDefinition :=
  let defn := { GpuConstantDefinition.init with logicalIndex := desc.RegisterIndex }
  let defn := populateDef desc defn
  { defn with physicalIndex := bufferSize * 4 }

/-- The branch of `processParamElement` for a float/int/bool constant named `name`:
the logical-to-physical entry is emplaced and the buffer size grown in every case; the
definition enters the parameter map, and the size estimate grows, only when the name is
not yet a key. The product `arraySize * elementSize` and the sums are taken on natural
numbers; they are those of the source as long as the product of the two 32-bit fields
is below `2^32` and `bufferSize*4` below `2^64`, which the statements about the values
of sizes and offsets assume. -/
def processConstant (name : OgreString) (desc : D3DXCONSTANT_DESC) (p : D3D9HLSLProgram) :
    D3D9HLSLProgram :=
  let paramIndex := desc.RegisterIndex
  let defn := leafDef desc p.mLogicalToPhysical.bufferSize
  let l2p : GpuLogicalBufferStruct :=
    { map := emplace paramIndex
        { physicalIndex := defn.physicalIndex,
          currentSize := defn.arraySize * defn.elementSize,
          variability := GPV_GLOBAL,
          baseType := if defn.isFloat then BCT_FLOAT else BCT_INT }
        p.mLogicalToPhysical.map,
      bufferSize := p.mLogicalToPhysical.bufferSize + defn.arraySize * defn.elementSize }
  let p := { p with mLogicalToPhysical := l2p }
  if find name p.mParametersMap = none then
    { p with
      mParametersMap := emplace name defn p.mParametersMap,
      mParametersMapSizeAsBuffer :=
        p.mParametersMapSizeAsBuffer + sizeofSizeT + name.length
          + sizeofGpuConstantDefinition }
  else p

/-- The name trimming of `processParamElement`: `paramName.at(0)` throws on an empty
name (`none`); otherwise a leading `$` is erased, and then a trailing `[0]`. -/
def trimName (raw : OgreString) : Option OgreString :=
  match raw with
  | [] => none
  | c :: rest =>
    let paramName := if c = 36 then rest else c :: rest
    if StringUtil.endsWith paramName (lit "[0]") then
      some (paramName.take (paramName.length - 3))
    else some paramName

mutual
/-- The function `D3D9HLSLProgram::processParamElement` on the node that `GetConstant(parent, index)`
returns, with the accumulated name `pfx` (the parameter `prefix`). `none` is the
exception thrown for an empty name. -/
def processParamElement (node : ConstantNode) (pfx : OgreString) (p : D3D9HLSLProgram) :
    Option D3D9HLSLProgram :=
  match node with
  | .mk desc members =>
    match trimName desc.Name with
    | none => none
    | some paramName =>
      if desc.Class = D3DXPC_STRUCT then
        processMembers members (pfx ++ paramName ++ lit ".") p
      else if isConstantType desc.Type_ then
        some (processConstant (pfx ++ paramName) desc p)
      else some p
/-- The loop `for (i = 0; i < count; ++i) processParamElement(table, parent, pfx, i)`
over the nodes under one parent, found in `processParamElement` for the members of a
structure and in `compileMicrocode` for the top-level constants. -/
def processMembers (nodes : List ConstantNode) (pfx : OgreString) (p : D3D9HLSLProgram) :
    Option D3D9HLSLProgram :=
  match nodes with
  | [] => some p
  | n :: rest =>
    match processParamElement n pfx p with
    | none => none
    | some q => processMembers rest pfx q
end

/-- The constant loop of `compileMicrocode`: every top-level constant of the table is
processed with a NULL parent and an empty name so far. -/
def flattenConstants (table : List ConstantNode) (p : D3D9HLSLProgram) :
    Option D3D9HLSLProgram :=
  processMembers table [] p

/-- The function `D3D9HLSLProgram::unloadHighLevelImpl`: the parameter map is cleared, the size
estimate reset and the microcode released. -/
def unloadHighLevelImpl (p : D3D9HLSLProgram) : D3D9HLSLProgram :=
  { p with mParametersMap := [], mParametersMapSizeAsBuffer := 0, mMicroCode := [] }

/-- The function `D3D9HLSLProgram::buildConstantDefinitions`: the buffer size of the named constants
is set from the logical-to-physical structure, then every parameter, in map order, is
emplaced into the named constants and into the logical-to-physical map, whose buffer
size grows by the parameter's size. -/
def buildConstantDefinitions (p : D3D9HLSLProgram) : D3D9HLSLProgram :=
  let start := { p with mConstantDefs :=
    { p.mConstantDefs with bufferSize := p.mLogicalToPhysical.bufferSize } }
  p.mParametersMap.foldl (fun q e =>
    let defn := e.2
    { q with
      mConstantDefs := { q.mConstantDefs with map := emplace e.1 e.2 q.mConstantDefs.map },
      mLogicalToPhysical :=
        { map := emplace defn.logicalIndex
            { physicalIndex := defn.physicalIndex,
              currentSize := defn.arraySize * defn.elementSize,
              variability := GPV_GLOBAL,
              baseType := if defn.isFloat then BCT_FLOAT else BCT_INT }
            q.mLogicalToPhysical.map,
          bufferSize := q.mLogicalToPhysical.bufferSize + defn.arraySize * defn.elementSize } })
    start

/-- A float4 constant `$lightColor` at register 3. -/
def lightColorDesc : D3DXCONSTANT_DESC :=
  { Name := lit "$lightColor", RegisterIndex := 3, RegisterCount := 1,
    Class := D3DXPC_VECTOR, Type_ := D3DXPT_FLOAT, Rows := 1, Columns := 4, Elements := 1 }

/-! ## The microcode cache codec -/

/-- The image in memory of an unsigned integer of `width` bytes, least significant
byte first; the value is reduced modulo `2^(8*width)`. -/
def toBytesLE : Nat → Nat → List Byte
  | 0, _ => []
  | width + 1, n => Fin.ofNat n :: toBytesLE width (n / 256)

/-- The unsigned integer whose image in memory is the given bytes. -/
def ofBytesLE : List Byte → Nat
  | [] => 0
  | b :: bs => b.val + 256 * ofBytesLE bs

/-- Modelled from the spec: the enumerator values of `GpuConstantType` (engine header,
not part of this file), as stored in the raw image of a definition. -/
def GpuConstantType.code : GpuConstantType → Nat
  | GCT_FLOAT1 => 1 | GCT_FLOAT2 => 2 | GCT_FLOAT3 => 3 | GCT_FLOAT4 => 4
  | GCT_MATRIX_2X2 => 5 | GCT_MATRIX_2X3 => 6 | GCT_MATRIX_2X4 => 7
  | GCT_MATRIX_3X2 => 8 | GCT_MATRIX_3X3 => 9 | GCT_MATRIX_3X4 => 10
  | GCT_MATRIX_4X2 => 11 | GCT_MATRIX_4X3 => 12 | GCT_MATRIX_4X4 => 13
  | GCT_INT1 => 17 | GCT_INT2 => 18 | GCT_INT3 => 19 | GCT_INT4 => 20
  | GCT_UNKNOWN => 112

/-- The type with a given enumerator value; a value that names none of the modelled
types is taken as `GCT_UNKNOWN`. -/
def GpuConstantType.ofCode : Nat → GpuConstantType
  | 1 => GCT_FLOAT1 | 2 => GCT_FLOAT2 | 3 => GCT_FLOAT3 | 4 => GCT_FLOAT4
  | 5 => GCT_MATRIX_2X2 | 6 => GCT_MATRIX_2X3 | 7 => GCT_MATRIX_2X4
  | 8 => GCT_MATRIX_3X2 | 9 => GCT_MATRIX_3X3 | 10 => GCT_MATRIX_3X4
  | 11 => GCT_MATRIX_4X2 | 12 => GCT_MATRIX_4X3 | 13 => GCT_MATRIX_4X4
  | 17 => GCT_INT1 | 18 => GCT_INT2 | 19 => GCT_INT3 | 20 => GCT_INT4
  | _ => GCT_UNKNOWN

/-- Modelled from the spec: the "fixed-size raw struct image" of a definition, the
bytes that `write(&def, sizeof(GpuConstantDefinition))` copies: physical index and
logical index (`size_t`), element size, array size and type (32 bits each), variability
(16 bits), two bytes of padding (written here as 0). -/
def GpuConstantDefinition.image (d : GpuConstantDefinition) : List Byte :=
  toBytesLE 8 d.physicalIndex ++ toBytesLE 8 d.logicalIndex ++ toBytesLE 4 d.elementSize
    ++ toBytesLE 4 d.arraySize ++ toBytesLE 4 d.constType.code
    ++ toBytesLE 2 d.variability ++ [0, 0]

/-- The definition whose raw image is the given `sizeof(GpuConstantDefinition)` bytes,
as `read(&def, sizeof(GpuConstantDefinition))` leaves it. -/
def GpuConstantDefinition.ofImage (bs : List Byte) : GpuConstantDefinition :=
  { physicalIndex := ofBytesLE (bs.take 8),
    logicalIndex := ofBytesLE ((bs.drop 8).take 8),
    elementSize := ofBytesLE ((bs.drop 16).take 4),
    arraySize := ofBytesLE ((bs.drop 20).take 4),
    constType := GpuConstantType.ofCode (ofBytesLE ((bs.drop 24).take 4)),
    variability := ofBytesLE ((bs.drop 28).take 2) }

/-- The fields of a definition are within the range of their C++ types. -/
def GpuConstantDefinition.InRange (d : GpuConstantDefinition) : Prop :=
  d.physicalIndex < 2 ^ 64 ∧ d.logicalIndex < 2 ^ 64 ∧ d.elementSize < 2 ^ 32 ∧
    d.arraySize < 2 ^ 32 ∧ d.variability < 2 ^ 16

/-- Modelled from the spec: `DataStream::read(buf, count)` of the engine's memory
stream (not part of this file) on the unread bytes `stream`: when the stream holds the
`count` bytes asked for, they are copied to `buf` and are no longer unread. When it
holds fewer, the case that section 7 of the spec calls unchecked in the original, the
bytes that it holds are copied to the start of `buf` and the model leaves the other
bytes of `buf` as they were; no statement of this file rests on that choice: the
statements say only what a read delivers from the bytes that the stream holds. -/
def DataStream.read (buf : List Byte) (count : Nat) (stream : List Byte) :
    List Byte × List Byte :=
  let cnt := min count stream.length
  (stream.take cnt ++ buf.drop cnt, stream.drop count)

/-- Modelled from the spec: the memory stream that `createMicrocode(size)` returns
(engine code, not part of this file): a buffer of `mSize` bytes and the bytes written
to it so far. -/
structure MemoryDataStream where
  mSize : Nat
  written : List Byte
  deriving DecidableEq, Repr

/-- Modelled from the spec: `DataStream::write(buf, count)` of the memory stream: the
bytes are appended as far as the buffer has room. -/
def MemoryDataStream.write (s : MemoryDataStream) (bytes : List Byte) : MemoryDataStream :=
  { s with written := s.written ++ bytes.take (s.mSize - s.written.length) }

/-- The `mSize` bytes of the buffer: the bytes written, then the bytes never written
(which the source leaves unspecified, taken here as 0). -/
def MemoryDataStream.contents (s : MemoryDataStream) : List Byte :=
  s.written ++ List.replicate (s.mSize - s.written.length) 0

/-- The function `D3D9HLSLProgram::addMicrocodeToCache`: the record stored in the cache. The buffer
is allocated with the size computed from the size estimate, then the microcode size,
the microcode, the parameter count and, for every parameter in map order, the name
size, the name and the raw definition are written. -/
def addMicrocodeToCache (p : D3D9HLSLProgram) : List Byte :=
  let sizeOfBuffer :=
    sizeofSizeT + p.mMicroCode.length + sizeofSizeT + p.mParametersMapSizeAsBuffer
  let newMicrocode : MemoryDataStream := { mSize := sizeOfBuffer, written := [] }
  let microcodeSize := p.mMicroCode.length
  let newMicrocode := newMicrocode.write (toBytesLE sizeofSizeT microcodeSize)
  let newMicrocode := newMicrocode.write p.mMicroCode
  let parametersMapSize := p.mParametersMap.length
  let newMicrocode := newMicrocode.write (toBytesLE sizeofSizeT parametersMapSize)
  let newMicrocode := p.mParametersMap.foldl (fun s e =>
    let stringSize := e.1.length
    let s := s.write (toBytesLE sizeofSizeT stringSize)
    let s := s.write e.1
    s.write e.2.image) newMicrocode
  newMicrocode.contents

/-- The parameter loop of `getMicrocodeFromCache`: `parametersMapSize` times, a name
size, a name of that size and a raw definition are read and emplaced into the map. A
short read leaves the rest of its target as it was: 0 for the size, the zero bytes of
`resize` for the name, the default definition for the definition. -/
def readParameters : Nat → List Byte → List (OgreString × GpuConstantDefinition) →
    List (OgreString × GpuConstantDefinition)
  | 0, _, m => m
  | n + 1, stream, m =>
    let r := DataStream.read (toBytesLE sizeofSizeT 0) sizeofSizeT stream
    let stringSize := ofBytesLE r.1
    let r := DataStream.read (List.replicate stringSize 0) stringSize r.2
    let paramName := r.1
    let r := DataStream.read GpuConstantDefinition.init.image sizeofGpuConstantDefinition r.2
    let defn := GpuConstantDefinition.ofImage r.1
    readParameters n r.2 (emplace paramName defn m)

/-- The function `D3D9HLSLProgram::getMicrocodeFromCache` on the record `cacheMicrocode` found in the
cache: the microcode size, a microcode buffer of that size (fresh from
`D3DXCreateBuffer`, its bytes taken as 0 before the read), the parameter count and the
parameters. No return value of `read` is looked at, the result of the buffer creation
is never tested, and nothing is thrown. The buffer is that of the source for a size
below `2^32` (the size parameter of `D3DXCreateBuffer` is a 32-bit `DWORD`) and with
the creation succeeding. -/
def getMicrocodeFromCache (cacheMicrocode : List Byte) (p : D3D9HLSLProgram) :
    D3D9HLSLProgram :=
  let r := DataStream.read (toBytesLE sizeofSizeT 0) sizeofSizeT cacheMicrocode
  let microcodeSize := ofBytesLE r.1
  let r := DataStream.read (List.replicate microcodeSize 0) microcodeSize r.2
  let mMicroCode := r.1
  let r := DataStream.read (toBytesLE sizeofSizeT 0) sizeofSizeT r.2
  let parametersMapSize := ofBytesLE r.1
  { p with
    mMicroCode := mMicroCode,
    mParametersMap := readParameters parametersMapSize r.2 p.mParametersMap }

/-! ## Target selection -/

/-- The runs of `StringUtil::split`: the maximal runs of bytes that are not delimiters,
in order; `cur` is the run being read. -/
def splitRuns (delims : OgreString) : OgreString → OgreString → List OgreString
  | cur, [] => if cur.isEmpty then [] else [cur]
  | cur, c :: rest =>
    if c ∈ delims then
      if cur.isEmpty then splitRuns delims [] rest else cur :: splitRuns delims [] rest
    else splitRuns delims (cur ++ [c]) rest

/-- Modelled from the spec: `StringUtil::split(str, delims)` of the engine's string
utilities, which are not part of this file. The spec calls its argument a
"space-separated profile preference list": the result is the list of the maximal runs
of bytes that are not delimiters; the empty string gives one empty run. -/
def StringUtil.split (str delims : OgreString) : List OgreString :=
  if str.isEmpty then [[]] else splitRuns delims [] str

/-- The loop of `setTarget`: the first profile of the list that the program manager
reports as supported (`isSyntaxSupported`), `none` when the loop ends without a
`return`. -/
def firstSupported (isSyntaxSupported : OgreString → Bool) : List OgreString → Option OgreString
  | [] => none
  | currentProfile :: rest =>
    if isSyntaxSupported currentProfile then some currentProfile
    else firstSupported isSyntaxSupported rest

/-- The function `D3D9HLSLProgram::setTarget`: the value it assigns to `mTarget`, given
the answers of `GpuProgramManager::isSyntaxSupported`. `none` stands for
`profiles.front()` on an empty vector, which the source does not define. -/
def setTarget (isSyntaxSupported : OgreString → Bool) (target : OgreString) :
    Option OgreString :=
  let profiles := StringUtil.split target (lit " ")
  match firstSupported isSyntaxSupported profiles with
  | some currentProfile => some currentProfile
  | none => profiles.head?

/-! ## Notions used to state the claims -/

/-- The bytes of the parameter section of a cache record. -/
def encodeParameters (m : List (OgreString × GpuConstantDefinition)) : List Byte :=
  m.flatMap (fun e => toBytesLE sizeofSizeT e.1.length ++ e.1 ++ e.2.image)

/-- The number of bytes of the parameter section of a cache record. -/
def serializedSize (m : List (OgreString × GpuConstantDefinition)) : Nat :=
  (m.map (fun e => sizeofSizeT + e.1.length + sizeofGpuConstantDefinition)).sum

/-- The stripped name of the spec: one leading `$` removed, then one trailing `[0]`
removed. -/
def strippedName (raw : OgreString) : OgreString :=
  let s := if raw.head? = some 36 then raw.tail else raw
  if StringUtil.endsWith s (lit "[0]") then s.take (s.length - 3) else s

mutual
/-- The float/int/bool leaves under a node in traversal order (declaration order at
each level), each with the descriptions of its enclosing structures, outermost first.
A structure node is no leaf; a leaf of another type (sampler, texture) is left out. -/
def ConstantNode.leaves : ConstantNode → List (List D3DXCONSTANT_DESC × D3DXCONSTANT_DESC)
  | .mk desc members =>
    if desc.Class = D3DXPC_STRUCT then
      (leavesOfList members).map (fun al => (desc :: al.1, al.2))
    else if isConstantType desc.Type_ then [([], desc)]
    else []
/-- The float/int/bool leaves under a list of nodes, in traversal order. -/
def leavesOfList : List ConstantNode → List (List D3DXCONSTANT_DESC × D3DXCONSTANT_DESC)
  | [] => []
  | n :: rest => n.leaves ++ leavesOfList rest
end

/-- The dotted name of the spec: each enclosing structure's stripped name followed by
`.`, in ancestor order, then the leaf's stripped name. -/
def dottedName (ancestors : List D3DXCONSTANT_DESC) (leaf : D3DXCONSTANT_DESC) : OgreString :=
  ancestors.foldr (fun a acc => strippedName a.Name ++ lit "." ++ acc) (strippedName leaf.Name)

/-- The float/int/bool leaves of a constant table in traversal order, each with its
dotted name. -/
def namedLeaves (table : List ConstantNode) : List (OgreString × D3DXCONSTANT_DESC) :=
  (leavesOfList table).map (fun al => (dottedName al.1 al.2, al.2))

mutual
/-- Every node that the walk visits has a non-empty raw name (the walk never looks
under a node that is not a structure). -/
def ConstantNode.namesNonEmpty : ConstantNode → Bool
  | .mk desc members =>
    !desc.Name.isEmpty &&
      (if desc.Class = D3DXPC_STRUCT then namesNonEmptyList members else true)
/-- Every node that the walk visits under a list of nodes has a non-empty raw name. -/
def namesNonEmptyList : List ConstantNode → Bool
  | [] => true
  | n :: rest => n.namesNonEmpty && namesNonEmptyList rest
end

/-- The constants of a list registered one after the other, as the walk does. -/
def registerAll (p : D3D9HLSLProgram) (l : List (OgreString × D3DXCONSTANT_DESC)) :
    D3D9HLSLProgram :=
  l.foldl (fun q e => processConstant e.1 e.2 q) p

/-- The size, `arraySize * elementSize`, that the walk computes for a constant. -/
def leafSize (desc : D3DXCONSTANT_DESC) : Nat :=
  (leafDef desc 0).arraySize * (leafDef desc 0).elementSize

/-- The logical-to-physical entry that the walk computes for a constant when the
running physical buffer size is `bufferSize`. -/
def leafUse (desc : D3DXCONSTANT_DESC) (bufferSize : Nat) : GpuLogicalIndexUse :=
  { physicalIndex := (leafDef desc bufferSize).physicalIndex,
    currentSize := (leafDef desc bufferSize).arraySize * (leafDef desc bufferSize).elementSize,
    variability := GPV_GLOBAL,
    baseType := if (leafDef desc bufferSize).isFloat then BCT_FLOAT else BCT_INT }

/-- The definitions computed for the leaves of a list in traversal order, each under
its name: the running buffer size starts at `bufferSize` and grows by the size of every
leaf passed. -/
def leafDefs : Nat → List (OgreString × D3DXCONSTANT_DESC) →
    List (OgreString × GpuConstantDefinition)
  | _, [] => []
  | bufferSize, e :: rest =>
    (e.1, leafDef e.2 bufferSize) :: leafDefs (bufferSize + leafSize e.2) rest

/-- The logical-to-physical entries computed for the leaves of a list in traversal
order, each under its register index. -/
def leafUses : Nat → List (OgreString × D3DXCONSTANT_DESC) →
    List (Nat × GpuLogicalIndexUse)
  | _, [] => []
  | bufferSize, e :: rest =>
    (e.2.RegisterIndex, leafUse e.2 bufferSize) :: leafUses (bufferSize + leafSize e.2) rest

/-- A list of entries emplaced one after the other into a map. -/
def emplaceAll {κ ν : Type} [LinearOrder κ] (m l : List (κ × ν)) : List (κ × ν) :=
  l.foldl (fun a e => emplace e.1 e.2 a) m

/-- The definition of an `int2` array of three elements at register 0. -/
def sampleIntDef : GpuConstantDefinition :=
  { constType := GCT_INT2, physicalIndex := 16, logicalIndex := 0,
    elementSize := 4, arraySize := 3, variability := GPV_GLOBAL }

/-- The definition of a `float4` at register 3. -/
def sampleFloatDef : GpuConstantDefinition :=
  { constType := GCT_FLOAT4, physicalIndex := 0, logicalIndex := 3,
    elementSize := 4, arraySize := 1, variability := GPV_GLOBAL }

/-- A program holding three bytes of microcode and two parameters, with the size
estimate that the walk leaves for them. -/
def cachedProgram : D3D9HLSLProgram :=
  { D3D9HLSLProgram.init with
    mMicroCode := [1, 2, 3],
    mParametersMap := [(lit "ab", sampleIntDef), (lit "lightColor", sampleFloatDef)],
    mParametersMapSizeAsBuffer := 92 }

/-- A cache record that declares five bytes of microcode and holds two. -/
def truncatedRecord : List Byte := [5, 0, 0, 0, 0, 0, 0, 0, 1, 2]

/-- The dotted names of the float/int/bool leaves of a table, in traversal order. -/
def dottedNames (table : List ConstantNode) : List OgreString :=
  (leavesOfList table).map (fun al => dottedName al.1 al.2)

/-- The sum of `arraySize * elementSize` over the leaves of a list. -/
def sizeSum (l : List (OgreString × D3DXCONSTANT_DESC)) : Nat :=
  (l.map (fun e => leafSize e.2)).sum

/-- The quotient `RegisterCount / Elements` of `populateDef` is defined for a
description: the division is reached for type float and a matrix class only, and there
`Elements` is not 0 (D3DX reports `Elements >= 1`). Where it fails the source divides
by zero and returns nothing. -/
def QuotientDefined (d : D3DXCONSTANT_DESC) : Prop :=
  d.Type_ = D3DXPT_FLOAT →
    (d.Class = D3DXPC_MATRIX_ROWS ∨ d.Class = D3DXPC_MATRIX_COLUMNS) → d.Elements ≠ 0

/-- The sizes of a walk over the leaves `l`, begun at the buffer size `start`, stay
within their C++ types: for every leaf the register index, the register count and the
element count are below `2^32`, the range of the `UINT` fields of `D3DXCONSTANT_DESC`,
and so is the product `arraySize * elementSize`, which the source takes of two 32-bit
fields; and four times the buffer size at the end of the walk, hence every running
buffer size and every physical index `bufferSize*4` on the way, is below `2^64`, the
range of `size_t`. Under these bounds the natural-number sums and products of the walk
are those of the source. -/
def SizesInRange (start : Nat) (l : List (OgreString × D3DXCONSTANT_DESC)) : Prop :=
  (∀ e ∈ l, e.2.RegisterIndex < 2 ^ 32 ∧ e.2.RegisterCount < 2 ^ 32 ∧
    e.2.Elements < 2 ^ 32 ∧ leafSize e.2 < 2 ^ 32) ∧
  (start + sizeSum l) * 4 < 2 ^ 64

/-- A float leaf of vector class with the given raw name, register index and columns. -/
def vectorDesc (name : String) (registerIndex columns : Nat) : D3DXCONSTANT_DESC :=
  { Name := lit name, RegisterIndex := registerIndex, RegisterCount := 1,
    Class := D3DXPC_VECTOR, Type_ := D3DXPT_FLOAT, Rows := 1, Columns := columns,
    Elements := 1 }

/-- A structure node with the given raw name. -/
def structDesc (name : String) : D3DXCONSTANT_DESC :=
  { Name := lit name, RegisterIndex := 0, RegisterCount := 2,
    Class := D3DXPC_STRUCT, Type_ := D3DXPT_VOID, Rows := 1, Columns := 7, Elements := 1 }

/-- A sampler leaf with the given raw name. -/
def samplerDesc (name : String) : D3DXCONSTANT_DESC :=
  { Name := lit name, RegisterIndex := 0, RegisterCount := 1,
    Class := D3DXPC_OBJECT, Type_ := D3DXPT_SAMPLER2D, Rows := 1, Columns := 1, Elements := 1 }

/-- A column-major float 4x4 matrix array `$bones[0]` of two elements, in 8 registers
from register 4. -/
def bonesDesc : D3DXCONSTANT_DESC :=
  { Name := lit "$bones[0]", RegisterIndex := 4, RegisterCount := 8,
    Class := D3DXPC_MATRIX_COLUMNS, Type_ := D3DXPT_FLOAT, Rows := 4, Columns := 4,
    Elements := 2 }

/-- A table with a structure `$light` of two members, a sampler, a global vector and a
global matrix array. -/
def sampleTable : List ConstantNode :=
  [.mk (structDesc "$light")
      [.mk (vectorDesc "position" 0 3) [], .mk (vectorDesc "color[0]" 1 4) []],
   .mk (samplerDesc "$diffuseMap") [],
   .mk (vectorDesc "$lightColor" 3 4) [],
   .mk bonesDesc []]

/-- A table in which two leaves have the dotted name `a`. -/
def duplicateTable : List ConstantNode :=
  [.mk (vectorDesc "$a" 0 4) [], .mk (vectorDesc "a" 1 2) []]

/-- A table in which a float constant and an int constant both have register index 0
(they live in different register sets). -/
def collidingTable : List ConstantNode :=
  [.mk (vectorDesc "a" 0 4) [],
   .mk { vectorDesc "b" 0 4 with Type_ := D3DXPT_INT } []]

/-- The type named `MATRIX_<firstDim>X<secondDim>`, for dimensions from 2 to 4. -/
def matrixType : Nat → Nat → GpuConstantType
  | 2, 2 => GCT_MATRIX_2X2 | 2, 3 => GCT_MATRIX_2X3 | 2, 4 => GCT_MATRIX_2X4
  | 3, 2 => GCT_MATRIX_3X2 | 3, 3 => GCT_MATRIX_3X3 | 3, 4 => GCT_MATRIX_3X4
  | 4, 2 => GCT_MATRIX_4X2 | 4, 3 => GCT_MATRIX_4X3 | 4, 4 => GCT_MATRIX_4X4
  | _, _ => GCT_UNKNOWN

/-- The type named `FLOAT<c>`, for `c` from 1 to 4. -/
def floatType : Nat → GpuConstantType
  | 1 => GCT_FLOAT1 | 2 => GCT_FLOAT2 | 3 => GCT_FLOAT3 | 4 => GCT_FLOAT4
  | _ => GCT_UNKNOWN

/-- The type named `INT<c>`, for `c` from 1 to 4. -/
def intType : Nat → GpuConstantType
  | 1 => GCT_INT1 | 2 => GCT_INT2 | 3 => GCT_INT3 | 4 => GCT_INT4
  | _ => GCT_UNKNOWN

/-- The first matrix dimension that `populateDef` computes. -/
def firstDimOf (d : D3DXCONSTANT_DESC) : Nat := d.RegisterCount / d.Elements

/-- The second matrix dimension that `populateDef` computes. -/
def secondDimOf (d : D3DXCONSTANT_DESC) : Nat :=
  if d.Class = D3DXPC_MATRIX_ROWS then d.Columns else d.Rows

/-- A float matrix node of the given class, rows, columns, array length and register
count. -/
def matrixDesc (cls : D3DXPARAMETER_CLASS) (rows columns elements registerCount : Nat) :
    D3DXCONSTANT_DESC :=
  { Name := lit "m", RegisterIndex := 0, RegisterCount := registerCount,
    Class := cls, Type_ := D3DXPT_FLOAT, Rows := rows, Columns := columns,
    Elements := elements }

/-- A space-separated list: the names with one space between neighbours. -/
def spaceSeparated : List OgreString → OgreString
  | [] => []
  | [name] => name
  | name :: rest => name ++ lit " " ++ spaceSeparated rest

/-- The sum of the sizes of the entries held in a logical-to-physical map. -/
def entriesSize (l : GpuLogicalBufferStruct) : Nat :=
  (l.map.map (fun e => e.2.currentSize)).sum

/-- One step on the program: a flatten step (`processParamElement` on some node with
some name so far, returning normally) or a call of `buildConstantDefinitions`. -/
inductive Step : D3D9HLSLProgram → D3D9HLSLProgram → Prop where
  | flatten (node : ConstantNode) (pfx : OgreString) (p q : D3D9HLSLProgram) :
      processParamElement node pfx p = some q → Step p q
  | build (p : D3D9HLSLProgram) : Step p (buildConstantDefinitions p)

/-- The programs reachable by steps from a program whose logical-to-physical structure
is empty (no entries, buffer size 0). -/
inductive Reachable : D3D9HLSLProgram → Prop where
  | start (p : D3D9HLSLProgram) :
      p.mLogicalToPhysical = { map := [], bufferSize := 0 } → Reachable p
  | step (p q : D3D9HLSLProgram) : Reachable p → Step p q → Reachable q

/-- The logical-to-physical entry that `buildConstantDefinitions` makes of a
definition. -/
def useOfDef (defn : GpuConstantDefinition) : GpuLogicalIndexUse :=
  { physicalIndex := defn.physicalIndex,
    currentSize := defn.arraySize * defn.elementSize,
    variability := GPV_GLOBAL,
    baseType := if defn.isFloat then BCT_FLOAT else BCT_INT }

/-- The update of the logical-to-physical structure made for one constant, in the walk
and in `buildConstantDefinitions` alike: the entry is emplaced under the logical index
and the buffer size grows by the entry's size. -/
def addUse (l : GpuLogicalBufferStruct) (index : Nat) (u : GpuLogicalIndexUse) :
    GpuLogicalBufferStruct :=
  { map := emplace index u l.map, bufferSize := l.bufferSize + u.currentSize }

/-- The fresh-compile path: the table is flattened into a new program, then the
constant definitions are built. -/
def compilePath (table : List ConstantNode) : Option D3D9HLSLProgram :=
  (flattenConstants table D3D9HLSLProgram.init).map buildConstantDefinitions

/-- The cache-hit path: the record that the fresh compile stores (encoded from the
flattened program) is decoded into a new program, then the constant definitions are
built. -/
def cachePath (table : List ConstantNode) : Option D3D9HLSLProgram :=
  (flattenConstants table D3D9HLSLProgram.init).map
    (fun q => buildConstantDefinitions
      (getMicrocodeFromCache (addMicrocodeToCache q) D3D9HLSLProgram.init))

/-- The three facts kept by every update of the logical-to-physical structure: the
entries' sizes stay within the buffer size, the buffer size does not decrease, no entry
is removed. -/
def Grows (l l2 : GpuLogicalBufferStruct) : Prop :=
  (entriesSize l ≤ l.bufferSize → entriesSize l2 ≤ l2.bufferSize) ∧
    l.bufferSize ≤ l2.bufferSize ∧ ∀ e ∈ l.map, e ∈ l2.map

/-- The loop body of `buildConstantDefinitions` for one parameter. -/
def buildOne (q : D3D9HLSLProgram) (e : OgreString × GpuConstantDefinition) :
    D3D9HLSLProgram :=
  { q with
    mConstantDefs := { q.mConstantDefs with map := emplace e.1 e.2 q.mConstantDefs.map },
    mLogicalToPhysical := addUse q.mLogicalToPhysical e.2.logicalIndex (useOfDef e.2) }

/-- Three profile names, in order of preference. -/
def sampleProfiles : List OgreString := [lit "vs_3_0", lit "ps_3_0", lit "ps_2_0"]

/-- A program manager that supports the profile `ps_3_0` only. -/
def supportsPs30 (profile : OgreString) : Bool := decide (profile = lit "ps_3_0")

/-- The `$lightColor` constant registered in a new program: the state after the walk
over the table of the worked example. -/
def flattenedLightColor : D3D9HLSLProgram :=
  processConstant (lit "lightColor") lightColorDesc D3D9HLSLProgram.init

/-! ## Lemmas: integer images -/

theorem toBytesLE_length (w n : Nat) : (toBytesLE w n).length = w := by
  induction w generalizing n with
  | zero => rfl
  | succ w ih => simp [toBytesLE, ih]

theorem ofBytesLE_toBytesLE (w n : Nat) (h : n < 256 ^ w) :
    ofBytesLE (toBytesLE w n) = n := by
  induction w generalizing n with
  | zero =>
    have : n = 0 := by simpa using h
    simp [toBytesLE, ofBytesLE, this]
  | succ w ih =>
    have hq : n / 256 < 256 ^ w := by
      rw [Nat.div_lt_iff_lt_mul (by decide)]
      rw [pow_succ] at h
      exact h
    simp only [toBytesLE, ofBytesLE, ih _ hq]
    show n % 256 + 256 * (n / 256) = n
    exact Nat.mod_add_div n 256

theorem code_lt (t : GpuConstantType) : t.code < 256 ^ 4 := by
  cases t <;> decide

theorem ofCode_code (t : GpuConstantType) : GpuConstantType.ofCode t.code = t := by
  cases t <;> rfl

theorem image_length (d : GpuConstantDefinition) :
    d.image.length = sizeofGpuConstantDefinition := by
  simp [GpuConstantDefinition.image, toBytesLE_length, sizeofGpuConstantDefinition]

theorem ofImage_image (d : GpuConstantDefinition) (h : d.InRange) :
    GpuConstantDefinition.ofImage d.image = d := by
  obtain ⟨h1, h2, h3, h4, h5⟩ := h
  obtain ⟨ct, pi, li, es, as, va⟩ := d
  simp only at h1 h2 h3 h4 h5
  unfold GpuConstantDefinition.ofImage GpuConstantDefinition.image
  have l8 := toBytesLE_length 8
  have l4 := toBytesLE_length 4
  have l2 := toBytesLE_length 2
  have t1 : ∀ (k : Nat) (a b : List Byte), a.length = k → (a ++ b).take k = a := by
    intro k a b ha; subst ha; simp
  have d1 : ∀ (k : Nat) (a b : List Byte), a.length = k → (a ++ b).drop k = b := by
    intro k a b ha; subst ha; simp
  simp only [List.append_assoc]
  have dd : ∀ (j k : Nat) (a b : List Byte), a.length = j → (a ++ b).drop (j + k) = b.drop k := by
    intro j k a b ha; subst ha; rw [← List.drop_drop]; simp
  rw [t1 8 _ _ (l8 _), d1 8 _ _ (l8 _), t1 8 _ _ (l8 _)]
  rw [show (16:Nat) = 8 + 8 from rfl, dd 8 8 _ _ (l8 _), d1 8 _ _ (l8 _), t1 4 _ _ (l4 _)]
  rw [show (20:Nat) = 8 + 12 from rfl, dd 8 12 _ _ (l8 _), show (12:Nat) = 8 + 4 from rfl,
    dd 8 4 _ _ (l8 _), d1 4 _ _ (l4 _), t1 4 _ _ (l4 _)]
  rw [show (24:Nat) = 8 + 16 from rfl, dd 8 16 _ _ (l8 _), show (16:Nat) = 8 + 8 from rfl,
    dd 8 8 _ _ (l8 _), show (8:Nat) = 4 + 4 from rfl, dd 4 4 _ _ (l4 _), d1 4 _ _ (l4 _),
    t1 4 _ _ (l4 _)]
  rw [show (28:Nat) = 8 + 20 from rfl, dd 8 20 _ _ (l8 _), show (20:Nat) = 8 + 12 from rfl,
    dd 8 12 _ _ (l8 _), show (12:Nat) = 4 + 8 from rfl, dd 4 8 _ _ (l4 _),
    show (8:Nat) = 4 + 4 from rfl, dd 4 4 _ _ (l4 _), d1 4 _ _ (l4 _), t1 2 _ _ (l2 _)]
  rw [ofBytesLE_toBytesLE 8 pi (by simpa using h1), ofBytesLE_toBytesLE 8 li (by simpa using h2),
    ofBytesLE_toBytesLE 4 es (by simpa using h3), ofBytesLE_toBytesLE 4 as (by simpa using h4),
    ofBytesLE_toBytesLE 4 _ (code_lt ct), ofBytesLE_toBytesLE 2 va (by simpa using h5),
    ofCode_code]

/-! ## Lemmas: streams -/

theorem read_append (buf xs rest : List Byte) (n : Nat) (hx : xs.length = n)
    (hb : buf.length ≤ n) : DataStream.read buf n (xs ++ rest) = (xs, rest) := by
  subst hx
  simp [DataStream.read, List.drop_eq_nil_of_le hb]

theorem write_append (s : MemoryDataStream) (bytes : List Byte)
    (h : s.written.length + bytes.length ≤ s.mSize) :
    s.write bytes = { s with written := s.written ++ bytes } := by
  unfold MemoryDataStream.write
  rw [List.take_of_length_le (by omega)]

theorem encodeParameters_length (m : List (OgreString × GpuConstantDefinition)) :
    (encodeParameters m).length = serializedSize m := by
  induction m with
  | nil => rfl
  | cons e t ih =>
    simp only [encodeParameters, serializedSize, List.flatMap_cons, List.length_append,
      List.map_cons, List.sum_cons, toBytesLE_length, image_length] at ih ⊢
    omega

theorem write_parameters (m : List (OgreString × GpuConstantDefinition))
    (s : MemoryDataStream) (h : s.written.length + serializedSize m ≤ s.mSize) :
    m.foldl (fun s e =>
      ((s.write (toBytesLE sizeofSizeT e.1.length)).write e.1).write e.2.image) s
      = { s with written := s.written ++ encodeParameters m } := by
  induction m generalizing s with
  | nil => simp [encodeParameters]
  | cons e t ih =>
    simp only [serializedSize, List.map_cons, List.sum_cons] at h
    have hl := toBytesLE_length sizeofSizeT e.1.length
    have hi := image_length e.2
    have ht : serializedSize t = (t.map (fun e => sizeofSizeT + e.1.length + sizeofGpuConstantDefinition)).sum := rfl
    simp only [List.foldl_cons]
    rw [write_append s _ (by omega)]
    rw [write_append _ e.1 (by simp only [List.length_append]; omega)]
    rw [write_append _ e.2.image (by simp only [List.length_append]; omega)]
    rw [ih _ (by simp only [List.length_append]; omega)]
    simp [encodeParameters, List.append_assoc]

theorem addMicrocodeToCache_eq (p : D3D9HLSLProgram)
    (h : serializedSize p.mParametersMap ≤ p.mParametersMapSizeAsBuffer) :
    addMicrocodeToCache p =
      toBytesLE sizeofSizeT p.mMicroCode.length ++ (p.mMicroCode ++
        (toBytesLE sizeofSizeT p.mParametersMap.length ++
          (encodeParameters p.mParametersMap ++
            List.replicate (p.mParametersMapSizeAsBuffer - serializedSize p.mParametersMap) 0))) := by
  unfold addMicrocodeToCache
  have hl := toBytesLE_length sizeofSizeT
  simp only []
  generalize hN : sizeofSizeT + p.mMicroCode.length + sizeofSizeT
    + p.mParametersMapSizeAsBuffer = N
  have w1 : (MemoryDataStream.mk N []).write (toBytesLE sizeofSizeT p.mMicroCode.length)
      = ⟨N, toBytesLE sizeofSizeT p.mMicroCode.length⟩ := by
    rw [write_append _ _ (by simp only [List.length_nil, hl]; omega)]; rfl
  have w2 : (MemoryDataStream.mk N (toBytesLE sizeofSizeT p.mMicroCode.length)).write
      p.mMicroCode = ⟨N, toBytesLE sizeofSizeT p.mMicroCode.length ++ p.mMicroCode⟩ := by
    rw [write_append _ _ (by simp only [hl]; omega)]
  have w3 : (MemoryDataStream.mk N
      (toBytesLE sizeofSizeT p.mMicroCode.length ++ p.mMicroCode)).write
      (toBytesLE sizeofSizeT p.mParametersMap.length)
      = ⟨N, toBytesLE sizeofSizeT p.mMicroCode.length ++ p.mMicroCode
          ++ toBytesLE sizeofSizeT p.mParametersMap.length⟩ := by
    rw [write_append _ _ (by simp only [List.length_append, hl]; omega)]
  rw [w1, w2, w3]
  rw [write_parameters _ _ (by simp only [List.length_append, hl]; omega)]
  simp only [MemoryDataStream.contents, List.length_append, hl,
    encodeParameters_length, List.append_assoc]
  congr 5
  omega

/-! ## Lemmas: decoding what was encoded -/

theorem emplace_last {κ ν : Type} [LinearOrder κ] (k : κ) (v : ν) (m : List (κ × ν))
    (h : ∀ e ∈ m, e.1 < k) : emplace k v m = m ++ [(k, v)] := by
  induction m with
  | nil => rfl
  | cons e t ih =>
    have he : e.1 < k := h e (List.mem_cons_self _ _)
    have h1 : ¬ k = e.1 := fun hk => absurd he (by rw [hk]; exact lt_irrefl _)
    have h2 : ¬ k < e.1 := fun hk => absurd (lt_trans he hk) (lt_irrefl _)
    simp only [emplace, if_neg h1, if_neg h2, List.cons_append]
    rw [ih (fun e2 he2 => h e2 (List.mem_cons_of_mem _ he2))]

theorem foldl_emplace_sorted {κ ν : Type} [LinearOrder κ] (acc m : List (κ × ν))
    (h : IsMap (acc ++ m)) : m.foldl (fun a e => emplace e.1 e.2 a) acc = acc ++ m := by
  induction m generalizing acc with
  | nil => simp
  | cons e t ih =>
    simp only [List.foldl_cons]
    have hlast : emplace e.1 e.2 acc = acc ++ [e] := by
      apply emplace_last
      intro e2 he2
      unfold IsMap at h
      rw [List.pairwise_append] at h
      exact h.2.2 e2 he2 e (List.mem_cons_self _ _)
    rw [hlast, ih _ (by simpa using h)]
    simp

theorem readParameters_encode (m : List (OgreString × GpuConstantDefinition))
    (rest : List Byte) (acc : List (OgreString × GpuConstantDefinition))
    (hk : ∀ e ∈ m, e.1.length < 2 ^ 64) (hd : ∀ e ∈ m, e.2.InRange) :
    readParameters m.length (encodeParameters m ++ rest) acc
      = m.foldl (fun a e => emplace e.1 e.2 a) acc := by
  induction m generalizing acc with
  | nil => rfl
  | cons e t ih =>
    have hl := toBytesLE_length sizeofSizeT e.1.length
    have hz := toBytesLE_length sizeofSizeT 0
    have hlen : ofBytesLE (toBytesLE sizeofSizeT e.1.length) = e.1.length :=
      ofBytesLE_toBytesLE _ _ (by
        have := hk e (List.mem_cons_self _ _)
        simpa [sizeofSizeT] using this)
    simp only [List.length_cons, readParameters, encodeParameters, List.flatMap_cons,
      List.append_assoc, List.foldl_cons]
    rw [read_append _ _ _ sizeofSizeT hl (le_of_eq hz)]
    simp only [hlen]
    rw [read_append _ e.1 _ e.1.length rfl (by simp)]
    simp only []
    rw [read_append _ e.2.image _ _ (image_length _) (le_of_eq (image_length _))]
    simp only [ofImage_image _ (hd e (List.mem_cons_self _ _))]
    have := ih (emplace e.1 e.2 acc) (fun e2 he2 => hk e2 (List.mem_cons_of_mem _ he2))
      (fun e2 he2 => hd e2 (List.mem_cons_of_mem _ he2))
    simpa [encodeParameters] using this

theorem trimName_eq (raw : OgreString) (h : raw.isEmpty = false) :
    trimName raw = some (strippedName raw) := by
  cases raw with
  | nil => simp at h
  | cons c rest =>
    simp only [trimName, strippedName, List.head?_cons, List.tail_cons, Option.some.injEq]
    by_cases hc : c = 36
    · simp only [hc, if_true]
      split <;> rfl
    · simp only [hc, if_false]
      split <;> rfl

theorem dottedName_cons (a : D3DXCONSTANT_DESC) (anc : List D3DXCONSTANT_DESC)
    (leaf : D3DXCONSTANT_DESC) :
    dottedName (a :: anc) leaf = strippedName a.Name ++ lit "." ++ dottedName anc leaf := rfl

mutual
theorem processParamElement_eq : ∀ (node : ConstantNode) (pfx : OgreString)
    (p : D3D9HLSLProgram), node.namesNonEmpty = true →
    processParamElement node pfx p
      = some (registerAll p (node.leaves.map (fun al => (pfx ++ dottedName al.1 al.2, al.2))))
  | .mk desc members, pfx, p, h => by
    simp only [ConstantNode.namesNonEmpty, Bool.and_eq_true, Bool.not_eq_true'] at h
    rw [processParamElement, trimName_eq _ h.1]
    simp only [ConstantNode.leaves]
    by_cases hs : desc.Class = D3DXPC_STRUCT
    · simp only [hs, if_true] at h ⊢
      rw [processMembers_eq members _ p h.2]
      simp only [List.map_map, Function.comp_def, dottedName_cons, List.append_assoc]
    · simp only [hs, if_false]
      by_cases ht : isConstantType desc.Type_ = true
      · simp [ht, registerAll, dottedName]
      · simp [ht, registerAll]
theorem processMembers_eq : ∀ (nodes : List ConstantNode) (pfx : OgreString)
    (p : D3D9HLSLProgram), namesNonEmptyList nodes = true →
    processMembers nodes pfx p
      = some (registerAll p ((leavesOfList nodes).map
          (fun al => (pfx ++ dottedName al.1 al.2, al.2))))
  | [], pfx, p, _ => by simp [processMembers, leavesOfList, registerAll]
  | n :: rest, pfx, p, h => by
    simp only [namesNonEmptyList, Bool.and_eq_true] at h
    rw [processMembers, processParamElement_eq n pfx p h.1]
    simp only []
    rw [processMembers_eq rest pfx _ h.2]
    simp [leavesOfList, registerAll, List.foldl_append]
end

theorem flattenConstants_eq (table : List ConstantNode) (p : D3D9HLSLProgram)
    (h : namesNonEmptyList table = true) :
    flattenConstants table p = some (registerAll p (namedLeaves table)) := by
  unfold flattenConstants
  rw [processMembers_eq table [] p h]
  simp [namedLeaves]

/-! ## Lemmas: `std::map` lookups -/

section MapLemmas

variable {κ ν : Type}

theorem find_eq_none_iff [DecidableEq κ] (k : κ) (m : List (κ × ν)) :
    find k m = none ↔ k ∉ keys m := by
  induction m with
  | nil => simp [find, keys]
  | cons e t ih =>
    by_cases h : k = e.1
    · simp [find, keys, h]
    · simp only [find, if_neg h, ih, keys, List.map_cons, List.mem_cons, not_or]
      exact ⟨fun h2 => ⟨h, h2⟩, fun h2 => h2.2⟩

theorem find_append [DecidableEq κ] (k : κ) (a b : List (κ × ν)) :
    find k (a ++ b) = match find k a with
      | some x => some x
      | none => find k b := by
  induction a with
  | nil => simp [find]
  | cons e t ih =>
    by_cases h : k = e.1
    · simp [find, h]
    · simp only [List.cons_append, find, if_neg h]
      exact ih

theorem mem_keys_emplace [LinearOrder κ] (a k : κ) (v : ν) (m : List (κ × ν)) :
    a ∈ keys (emplace k v m) ↔ a = k ∨ a ∈ keys m := by
  induction m with
  | nil => simp [emplace, keys]
  | cons e t ih =>
    unfold emplace
    by_cases h1 : k = e.1
    · simp only [if_pos h1, keys, List.map_cons, List.mem_cons]
      constructor
      · intro h; exact Or.inr h
      · rintro (h | h)
        · exact Or.inl (h.trans h1)
        · exact h
    · simp only [if_neg h1]
      by_cases h2 : k < e.1
      · simp [if_pos h2, keys]
      · simp only [if_neg h2, keys, List.map_cons, List.mem_cons] at ih ⊢
        rw [ih]
        tauto

theorem length_emplace_of_not_mem [LinearOrder κ] (k : κ) (v : ν) (m : List (κ × ν))
    (h : k ∉ keys m) : (emplace k v m).length = m.length + 1 := by
  induction m with
  | nil => simp [emplace]
  | cons e t ih =>
    simp only [keys, List.map_cons, List.mem_cons, not_or] at h
    unfold emplace
    simp only [if_neg h.1]
    by_cases h2 : k < e.1
    · simp [if_pos h2]
    · simp only [if_neg h2, List.length_cons]
      rw [ih h.2]

theorem find_emplace_of_not_mem [LinearOrder κ] [DecidableEq κ] (a k : κ) (v : ν) (m : List (κ × ν))
    (h : k ∉ keys m) : find a (emplace k v m) = find a (m ++ [(k, v)]) := by
  induction m with
  | nil => simp [emplace]
  | cons e t ih =>
    simp only [keys, List.map_cons, List.mem_cons, not_or] at h
    unfold emplace
    simp only [if_neg h.1]
    by_cases h2 : k < e.1
    · simp only [if_pos h2, List.cons_append]
      by_cases ha : a = k
      · subst ha
        have hn : find a (t ++ [(a, v)]) = some v := by
          rw [find_append, (find_eq_none_iff a t).2 h.2]
          simp [find]
        simp [find, h.1, hn]
      · by_cases hae : a = e.1
        · subst hae
          simp [find, ha]
        · have hn : find a (t ++ [(k, v)]) = find a t := by
            rw [find_append]
            cases hf : find a t <;> simp [find, ha]
          simp [find, ha, hae, hn]
    · simp only [if_neg h2, List.cons_append, find]
      rw [ih h.2]
      rfl

theorem emplace_isMap [LinearOrder κ] (k : κ) (v : ν) (m : List (κ × ν)) (h : IsMap m) :
    IsMap (emplace k v m) := by
  induction m with
  | nil => simp [emplace, IsMap]
  | cons e t ih =>
    unfold IsMap at h ih ⊢
    rw [List.pairwise_cons] at h
    unfold emplace
    by_cases h1 : k = e.1
    · simp only [if_pos h1]
      exact List.pairwise_cons.2 h
    · simp only [if_neg h1]
      by_cases h2 : k < e.1
      · simp only [if_pos h2]
        refine List.pairwise_cons.2 ⟨?_, List.pairwise_cons.2 h⟩
        intro b hb
        rcases List.mem_cons.1 hb with hb | hb
        · rw [hb]; exact h2
        · exact lt_trans h2 (h.1 b hb)
      · simp only [if_neg h2]
        refine List.pairwise_cons.2 ⟨?_, ih h.2⟩
        intro b hb
        have hb2 : b.1 ∈ keys (emplace k v t) := List.mem_map_of_mem _ hb
        rw [mem_keys_emplace] at hb2
        rcases hb2 with hb2 | hb2
        · rw [hb2]
          exact lt_of_le_of_ne (not_lt.1 h2) (fun hh => h1 hh.symm)
        · obtain ⟨c, hc, hcb⟩ := List.mem_map.1 hb2
          rw [← hcb]
          exact h.1 c hc

theorem emplace_of_mem [LinearOrder κ] (k : κ) (v : ν) (m : List (κ × ν)) (h : IsMap m)
    (hk : k ∈ keys m) : emplace k v m = m := by
  induction m with
  | nil => simp [keys] at hk
  | cons e t ih =>
    unfold IsMap at h ih
    rw [List.pairwise_cons] at h
    unfold emplace
    by_cases h1 : k = e.1
    · simp [if_pos h1]
    · simp only [if_neg h1]
      simp only [keys, List.map_cons, List.mem_cons] at hk
      have hkt : k ∈ keys t := hk.resolve_left h1
      obtain ⟨c, hc, hck⟩ := List.mem_map.1 hkt
      have h2 : ¬ k < e.1 := by
        rw [← hck]
        exact not_lt.2 (le_of_lt (h.1 c hc))
      simp only [if_neg h2]
      rw [ih h.2 hkt]

theorem find_emplace [LinearOrder κ] [DecidableEq κ] (a k : κ) (v : ν) (m : List (κ × ν)) (h : IsMap m) :
    find a (emplace k v m) = find a (m ++ [(k, v)]) := by
  by_cases hk : k ∈ keys m
  · rw [emplace_of_mem k v m h hk, find_append]
    cases hf : find a m with
    | some x => rfl
    | none =>
      have : a ≠ k := fun hh => (find_eq_none_iff a m).1 hf (hh ▸ hk)
      simp [find, this]
  · exact find_emplace_of_not_mem a k v m hk

theorem filter_key_of_find [DecidableEq κ] (k : κ) (v : ν) (m : List (κ × ν))
    (hn : (keys m).Nodup) (hf : find k m = some v) :
    m.filter (fun x => decide (x.1 = k)) = [(k, v)] := by
  induction m with
  | nil => simp [find] at hf
  | cons e t ih =>
    simp only [keys, List.map_cons, List.nodup_cons] at hn
    by_cases h : k = e.1
    · simp only [find, if_pos h, Option.some.injEq] at hf
      have hnone : ∀ x ∈ t, ¬ x.1 = k := by
        intro x hx hxk
        exact hn.1 (by rw [← h, ← hxk]; exact List.mem_map_of_mem _ hx)
      have ht : t.filter (fun x => decide (x.1 = k)) = [] := by
        rw [List.filter_eq_nil_iff]
        intro x hx
        simpa using hnone x hx
      rw [List.filter_cons_of_pos (by simpa using h.symm), ht, ← hf, h]
    · simp only [find, if_neg h] at hf
      rw [List.filter_cons_of_neg (by simpa using fun hh => h hh.symm)]
      exact ih hn.2 hf

theorem isMap_nodup_keys [LinearOrder κ] (m : List (κ × ν)) (h : IsMap m) :
    (keys m).Nodup := by
  unfold IsMap at h
  unfold keys
  rw [List.Nodup, List.pairwise_map]
  exact h.imp (fun hab => ne_of_lt hab)

end MapLemmas

section FoldLemmas

variable {κ ν : Type} [LinearOrder κ]

theorem emplaceAll_cons (m : List (κ × ν)) (e : κ × ν) (l : List (κ × ν)) :
    emplaceAll m (e :: l) = emplaceAll (emplace e.1 e.2 m) l := rfl

theorem emplaceAll_isMap (m l : List (κ × ν)) (h : IsMap m) : IsMap (emplaceAll m l) := by
  induction l generalizing m with
  | nil => exact h
  | cons e t ih => exact ih _ (emplace_isMap _ _ _ h)

theorem mem_keys_emplaceAll (a : κ) (m l : List (κ × ν)) :
    a ∈ keys (emplaceAll m l) ↔ a ∈ keys m ∨ a ∈ keys l := by
  induction l generalizing m with
  | nil => simp [emplaceAll, keys]
  | cons e t ih =>
    rw [emplaceAll_cons, ih, mem_keys_emplace]
    simp only [keys, List.map_cons, List.mem_cons]
    tauto

theorem find_emplaceAll [DecidableEq κ] (a : κ) (m l : List (κ × ν)) (h : IsMap m) :
    find a (emplaceAll m l) = find a (m ++ l) := by
  induction l generalizing m with
  | nil => simp [emplaceAll]
  | cons e t ih =>
    rw [emplaceAll_cons, ih _ (emplace_isMap _ _ _ h), find_append, find_emplace _ _ _ _ h,
      ← find_append]
    simp

theorem length_emplaceAll (m l : List (κ × ν)) (hl : (keys l).Nodup)
    (hd : ∀ a ∈ keys l, a ∉ keys m) :
    (emplaceAll m l).length = m.length + l.length := by
  induction l generalizing m with
  | nil => simp [emplaceAll]
  | cons e t ih =>
    simp only [keys, List.map_cons, List.nodup_cons] at hl
    have he : e.1 ∉ keys m := hd e.1 (by simp [keys])
    rw [emplaceAll_cons, ih _ hl.2, length_emplace_of_not_mem _ _ _ he]
    · simp only [List.length_cons]; omega
    · intro a ha hm
      rw [mem_keys_emplace] at hm
      rcases hm with hm | hm
      · exact hl.1 (hm ▸ ha)
      · exact hd a (by simp only [keys, List.map_cons, List.mem_cons]; exact Or.inr ha) hm

end FoldLemmas

/-! ## Lemmas: the walk as a fold over the leaves -/

theorem keys_leafDefs (b : Nat) (l : List (OgreString × D3DXCONSTANT_DESC)) :
    keys (leafDefs b l) = l.map Prod.fst := by
  induction l generalizing b with
  | nil => rfl
  | cons e t ih =>
    simp only [leafDefs, keys, List.map_cons] at ih ⊢
    rw [ih]

theorem keys_leafUses (b : Nat) (l : List (OgreString × D3DXCONSTANT_DESC)) :
    keys (leafUses b l) = l.map (fun e => e.2.RegisterIndex) := by
  induction l generalizing b with
  | nil => rfl
  | cons e t ih =>
    simp only [leafUses, keys, List.map_cons] at ih ⊢
    rw [ih]

theorem processConstant_l2p (name : OgreString) (desc : D3DXCONSTANT_DESC)
    (p : D3D9HLSLProgram) :
    (processConstant name desc p).mLogicalToPhysical =
      { map := emplace desc.RegisterIndex (leafUse desc p.mLogicalToPhysical.bufferSize)
          p.mLogicalToPhysical.map,
        bufferSize := p.mLogicalToPhysical.bufferSize + leafSize desc } := by
  unfold processConstant
  simp only []
  split <;> rfl

theorem processConstant_params (name : OgreString) (desc : D3DXCONSTANT_DESC)
    (p : D3D9HLSLProgram) (h : IsMap p.mParametersMap) :
    (processConstant name desc p).mParametersMap =
      emplace name (leafDef desc p.mLogicalToPhysical.bufferSize) p.mParametersMap := by
  unfold processConstant
  simp only []
  split
  · rfl
  · rename_i hf
    have : name ∈ keys p.mParametersMap := by
      by_contra hn
      exact hf ((find_eq_none_iff _ _).2 hn)
    rw [emplace_of_mem _ _ _ h this]

theorem processConstant_other (name : OgreString) (desc : D3DXCONSTANT_DESC)
    (p : D3D9HLSLProgram) :
    (processConstant name desc p).mMicroCode = p.mMicroCode ∧
      (processConstant name desc p).mConstantDefs = p.mConstantDefs := by
  unfold processConstant
  simp only []
  split <;> exact ⟨rfl, rfl⟩

theorem registerAll_cons (p : D3D9HLSLProgram) (e : OgreString × D3DXCONSTANT_DESC)
    (l : List (OgreString × D3DXCONSTANT_DESC)) :
    registerAll p (e :: l) = registerAll (processConstant e.1 e.2 p) l := rfl

theorem registerAll_bufferSize (p : D3D9HLSLProgram)
    (l : List (OgreString × D3DXCONSTANT_DESC)) :
    (registerAll p l).mLogicalToPhysical.bufferSize =
      p.mLogicalToPhysical.bufferSize + (l.map (fun e => leafSize e.2)).sum := by
  induction l generalizing p with
  | nil => simp [registerAll]
  | cons e t ih =>
    rw [registerAll_cons, ih, processConstant_l2p]
    simp only [List.map_cons, List.sum_cons]
    omega

theorem registerAll_l2p_map (p : D3D9HLSLProgram)
    (l : List (OgreString × D3DXCONSTANT_DESC)) :
    (registerAll p l).mLogicalToPhysical.map =
      emplaceAll p.mLogicalToPhysical.map (leafUses p.mLogicalToPhysical.bufferSize l) := by
  induction l generalizing p with
  | nil => rfl
  | cons e t ih =>
    rw [registerAll_cons, ih, processConstant_l2p]
    rfl

theorem registerAll_params (p : D3D9HLSLProgram)
    (l : List (OgreString × D3DXCONSTANT_DESC)) (h : IsMap p.mParametersMap) :
    (registerAll p l).mParametersMap =
      emplaceAll p.mParametersMap (leafDefs p.mLogicalToPhysical.bufferSize l) := by
  induction l generalizing p with
  | nil => rfl
  | cons e t ih =>
    rw [registerAll_cons, ih _ (by rw [processConstant_params _ _ _ h]; exact emplace_isMap _ _ _ h),
      processConstant_params _ _ _ h, processConstant_l2p]
    rfl

theorem isMap_nil {κ ν : Type} [LinearOrder κ] : IsMap ([] : List (κ × ν)) :=
  List.Pairwise.nil

theorem namedLeaves_names (table : List ConstantNode) :
    (namedLeaves table).map Prod.fst = dottedNames table := by
  simp [namedLeaves, dottedNames, List.map_map, Function.comp_def]

theorem leafDefs_append (b : Nat) (l1 l2 : List (OgreString × D3DXCONSTANT_DESC)) :
    leafDefs b (l1 ++ l2) = leafDefs b l1 ++ leafDefs (b + sizeSum l1) l2 := by
  induction l1 generalizing b with
  | nil => simp [leafDefs, sizeSum]
  | cons e t ih =>
    show _ :: leafDefs _ (t ++ l2) = _
    rw [ih]
    simp [leafDefs, sizeSum, Nat.add_assoc]

theorem leafUses_append (b : Nat) (l1 l2 : List (OgreString × D3DXCONSTANT_DESC)) :
    leafUses b (l1 ++ l2) = leafUses b l1 ++ leafUses (b + sizeSum l1) l2 := by
  induction l1 generalizing b with
  | nil => simp [leafUses, sizeSum]
  | cons e t ih =>
    show _ :: leafUses _ (t ++ l2) = _
    rw [ih]
    simp [leafUses, sizeSum, Nat.add_assoc]

theorem leavesOfList_flat (table : List ConstantNode)
    (h : ∀ n ∈ table, n.desc.Class ≠ D3DXPC_STRUCT) (al : List D3DXCONSTANT_DESC × D3DXCONSTANT_DESC) :
    al ∈ leavesOfList table ↔
      ∃ n ∈ table, isConstantType n.desc.Type_ = true ∧ al = ([], n.desc) := by
  induction table with
  | nil => simp [leavesOfList]
  | cons n rest ih =>
    have hn : n.desc.Class ≠ D3DXPC_STRUCT := h n (List.mem_cons_self _ _)
    have ih2 := ih (fun m hm => h m (List.mem_cons_of_mem _ hm))
    obtain ⟨desc, members⟩ := n
    simp only [ConstantNode.desc] at hn
    simp only [leavesOfList, ConstantNode.leaves, if_neg hn, List.mem_append, ih2,
      List.mem_cons, exists_eq_or_imp, ConstantNode.desc]
    by_cases ht : isConstantType desc.Type_ = true
    · simp [ht]
    · simp [ht]

/-! ## Lemmas: sums over a map -/

section SumLemmas
variable {κ ν : Type} [LinearOrder κ]

theorem mem_emplace_of_mem (k : κ) (v : ν) (m : List (κ × ν)) (e : κ × ν) (h : e ∈ m) :
    e ∈ emplace k v m := by
  induction m with
  | nil => simp at h
  | cons a t ih =>
    unfold emplace
    by_cases h1 : k = a.1
    · simp only [if_pos h1]; exact h
    · simp only [if_neg h1]
      by_cases h2 : k < a.1
      · simp only [if_pos h2]; exact List.mem_cons_of_mem _ h
      · simp only [if_neg h2]
        rcases List.mem_cons.1 h with h | h
        · rw [h]; exact List.mem_cons_self _ _
        · exact List.mem_cons_of_mem _ (ih h)

theorem sum_map_emplace_of_not_mem (g : κ × ν → Nat) (k : κ) (v : ν) (m : List (κ × ν))
    (h : k ∉ keys m) : ((emplace k v m).map g).sum = (m.map g).sum + g (k, v) := by
  induction m with
  | nil => simp [emplace]
  | cons a t ih =>
    simp only [keys, List.map_cons, List.mem_cons, not_or] at h
    unfold emplace
    simp only [if_neg h.1]
    by_cases h2 : k < a.1
    · simp only [if_pos h2, List.map_cons, List.sum_cons]; omega
    · simp only [if_neg h2, List.map_cons, List.sum_cons]
      rw [ih h.2]; omega

theorem sum_map_emplace_le (g : κ × ν → Nat) (k : κ) (v : ν) (m : List (κ × ν)) :
    ((emplace k v m).map g).sum ≤ (m.map g).sum + g (k, v) := by
  induction m with
  | nil => simp [emplace]
  | cons a t ih =>
    unfold emplace
    by_cases h1 : k = a.1
    · simp only [if_pos h1]; omega
    · simp only [if_neg h1]
      by_cases h2 : k < a.1
      · simp only [if_pos h2, List.map_cons, List.sum_cons]; omega
      · simp only [if_neg h2, List.map_cons, List.sum_cons]; omega

theorem sum_map_emplaceAll (g : κ × ν → Nat) (m l : List (κ × ν)) (hl : (keys l).Nodup)
    (hd : ∀ a ∈ keys l, a ∉ keys m) :
    ((emplaceAll m l).map g).sum = (m.map g).sum + (l.map g).sum := by
  induction l generalizing m with
  | nil => simp [emplaceAll]
  | cons e t ih =>
    simp only [keys, List.map_cons, List.nodup_cons] at hl
    have he : e.1 ∉ keys m := hd e.1 (by simp [keys])
    rw [emplaceAll_cons, ih _ hl.2, sum_map_emplace_of_not_mem _ _ _ _ he]
    · simp only [List.map_cons, List.sum_cons, Prod.mk.eta]; omega
    · intro a ha hm
      rw [mem_keys_emplace] at hm
      rcases hm with hm | hm
      · exact hl.1 (hm ▸ ha)
      · exact hd a (by simp only [keys, List.map_cons, List.mem_cons]; exact Or.inr ha) hm

end SumLemmas

/-! ## Lemmas: the logical-to-physical structure, step by step -/

theorem addUse_bufferSize_le (l : GpuLogicalBufferStruct) (i : Nat) (u : GpuLogicalIndexUse) :
    l.bufferSize ≤ (addUse l i u).bufferSize := by
  simp [addUse]

theorem addUse_mem (l : GpuLogicalBufferStruct) (i : Nat) (u : GpuLogicalIndexUse)
    (e : Nat × GpuLogicalIndexUse) (h : e ∈ l.map) : e ∈ (addUse l i u).map :=
  mem_emplace_of_mem _ _ _ _ h

theorem addUse_entriesSize (l : GpuLogicalBufferStruct) (i : Nat) (u : GpuLogicalIndexUse)
    (h : entriesSize l ≤ l.bufferSize) :
    entriesSize (addUse l i u) ≤ (addUse l i u).bufferSize := by
  have := sum_map_emplace_le (fun e : Nat × GpuLogicalIndexUse => e.2.currentSize) i u l.map
  simp only [entriesSize, addUse] at h this ⊢
  omega

theorem processConstant_addUse (name : OgreString) (desc : D3DXCONSTANT_DESC)
    (p : D3D9HLSLProgram) :
    (processConstant name desc p).mLogicalToPhysical =
      addUse p.mLogicalToPhysical desc.RegisterIndex
        (leafUse desc p.mLogicalToPhysical.bufferSize) := by
  rw [processConstant_l2p]
  rfl

theorem grows_refl (l : GpuLogicalBufferStruct) : Grows l l :=
  ⟨fun h => h, le_refl _, fun _ h => h⟩

theorem grows_trans (a b c : GpuLogicalBufferStruct) (h1 : Grows a b) (h2 : Grows b c) :
    Grows a c :=
  ⟨fun h => h2.1 (h1.1 h), le_trans h1.2.1 h2.2.1, fun e he => h2.2.2 e (h1.2.2 e he)⟩

theorem grows_addUse (l : GpuLogicalBufferStruct) (i : Nat) (u : GpuLogicalIndexUse) :
    Grows l (addUse l i u) :=
  ⟨addUse_entriesSize l i u, addUse_bufferSize_le l i u, addUse_mem l i u⟩

theorem grows_registerAll (p : D3D9HLSLProgram) (l : List (OgreString × D3DXCONSTANT_DESC)) :
    Grows p.mLogicalToPhysical (registerAll p l).mLogicalToPhysical := by
  induction l generalizing p with
  | nil => exact grows_refl _
  | cons e t ih =>
    rw [registerAll_cons]
    refine grows_trans _ _ _ ?_ (ih _)
    rw [processConstant_addUse]
    exact grows_addUse _ _ _

mutual
theorem processParamElement_some : ∀ (node : ConstantNode) (pfx : OgreString)
    (p q : D3D9HLSLProgram), processParamElement node pfx p = some q →
    q = registerAll p (node.leaves.map (fun al => (pfx ++ dottedName al.1 al.2, al.2)))
  | .mk desc members, pfx, p, q, h => by
    rw [processParamElement] at h
    cases hn : desc.Name with
    | nil => simp [hn, trimName] at h
    | cons c rest =>
      have hne : desc.Name.isEmpty = false := by simp [hn]
      rw [trimName_eq _ hne] at h
      simp only [ConstantNode.leaves]
      by_cases hs : desc.Class = D3DXPC_STRUCT
      · simp only [hs, if_true] at h ⊢
        rw [processMembers_some members _ p q h]
        simp only [List.map_map, Function.comp_def, dottedName_cons, List.append_assoc]
      · simp only [hs, if_false] at h ⊢
        by_cases ht : isConstantType desc.Type_ = true
        · simp only [ht, if_true, Option.some.injEq] at h ⊢
          rw [← h]
          simp [registerAll, dottedName]
        · simp only [ht, Bool.false_eq_true, if_false, Option.some.injEq] at h ⊢
          rw [← h]
          simp [registerAll]
theorem processMembers_some : ∀ (nodes : List ConstantNode) (pfx : OgreString)
    (p q : D3D9HLSLProgram), processMembers nodes pfx p = some q →
    q = registerAll p ((leavesOfList nodes).map
        (fun al => (pfx ++ dottedName al.1 al.2, al.2)))
  | [], pfx, p, q, h => by
    simp only [processMembers, Option.some.injEq] at h
    simp [leavesOfList, registerAll, h]
  | n :: rest, pfx, p, q, h => by
    rw [processMembers] at h
    cases h1 : processParamElement n pfx p with
    | none => simp [h1] at h
    | some r =>
      simp only [h1] at h
      rw [processMembers_some rest pfx r q h, processParamElement_some n pfx p r h1]
      simp [leavesOfList, registerAll, List.foldl_append]
end

/-! ## Lemmas: `buildConstantDefinitions` as a fold -/

theorem buildConstantDefinitions_eq (p : D3D9HLSLProgram) :
    buildConstantDefinitions p =
      p.mParametersMap.foldl buildOne
        { p with mConstantDefs :=
          { p.mConstantDefs with bufferSize := p.mLogicalToPhysical.bufferSize } } := rfl

theorem foldl_buildOne_l2p (l : List (OgreString × GpuConstantDefinition))
    (q : D3D9HLSLProgram) :
    Grows q.mLogicalToPhysical (l.foldl buildOne q).mLogicalToPhysical := by
  induction l generalizing q with
  | nil => exact grows_refl _
  | cons e t ih =>
    simp only [List.foldl_cons]
    exact grows_trans _ (buildOne q e).mLogicalToPhysical _
      (grows_addUse q.mLogicalToPhysical e.2.logicalIndex (useOfDef e.2)) (ih (buildOne q e))

theorem foldl_buildOne_constantDefs_bufferSize (l : List (OgreString × GpuConstantDefinition))
    (q : D3D9HLSLProgram) :
    (l.foldl buildOne q).mConstantDefs.bufferSize = q.mConstantDefs.bufferSize := by
  induction l generalizing q with
  | nil => rfl
  | cons e t ih =>
    simp only [List.foldl_cons]
    rw [ih]
    rfl

theorem grows_step (p q : D3D9HLSLProgram) (h : Step p q) :
    Grows p.mLogicalToPhysical q.mLogicalToPhysical := by
  cases h with
  | flatten node pfx _ _ hq =>
    rw [processParamElement_some node pfx p q hq]
    exact grows_registerAll _ _
  | build =>
    rw [buildConstantDefinitions_eq]
    exact foldl_buildOne_l2p p.mParametersMap
      { p with mConstantDefs :=
        { p.mConstantDefs with bufferSize := p.mLogicalToPhysical.bufferSize } }

theorem reachable_entriesSize (q : D3D9HLSLProgram) (h : Reachable q) :
    entriesSize q.mLogicalToPhysical ≤ q.mLogicalToPhysical.bufferSize := by
  induction h with
  | start p hp => rw [hp]; simp [entriesSize]
  | step p q _ hs ih => exact (grows_step p q hs).1 ih

/-! ## Lemmas: the serialized-size estimate -/

theorem serializedSize_emplace (name : OgreString) (defn : GpuConstantDefinition)
    (m : List (OgreString × GpuConstantDefinition)) (h : name ∉ keys m) :
    serializedSize (emplace name defn m)
      = serializedSize m + sizeofSizeT + name.length + sizeofGpuConstantDefinition := by
  unfold serializedSize
  rw [sum_map_emplace_of_not_mem _ _ _ _ h]
  simp only []
  omega

theorem processConstant_estimate (name : OgreString) (desc : D3DXCONSTANT_DESC)
    (p : D3D9HLSLProgram)
    (h : p.mParametersMapSizeAsBuffer = serializedSize p.mParametersMap) :
    (processConstant name desc p).mParametersMapSizeAsBuffer
      = serializedSize (processConstant name desc p).mParametersMap := by
  unfold processConstant
  simp only []
  split
  · rename_i hf
    simp only []
    rw [serializedSize_emplace _ _ _ ((find_eq_none_iff _ _).1 hf), h]
  · exact h

theorem registerAll_estimate (p : D3D9HLSLProgram)
    (l : List (OgreString × D3DXCONSTANT_DESC))
    (h : p.mParametersMapSizeAsBuffer = serializedSize p.mParametersMap) :
    (registerAll p l).mParametersMapSizeAsBuffer
      = serializedSize (registerAll p l).mParametersMap := by
  induction l generalizing p with
  | nil => exact h
  | cons e t ih =>
    rw [registerAll_cons]
    exact ih _ (processConstant_estimate _ _ _ h)

/-! ## Lemmas: the definition computed for a leaf -/

theorem populateDef_logicalIndex (d : D3DXCONSTANT_DESC) (defn : GpuConstantDefinition) :
    (populateDef d defn).logicalIndex = defn.logicalIndex := by
  unfold populateDef
  simp only []
  repeat' split
  all_goals rfl

theorem leafDef_logicalIndex (d : D3DXCONSTANT_DESC) (b : Nat) :
    (leafDef d b).logicalIndex = d.RegisterIndex := by
  unfold leafDef
  simp only []
  rw [populateDef_logicalIndex]

theorem leafDef_physicalIndex (d : D3DXCONSTANT_DESC) (b : Nat) :
    (leafDef d b).physicalIndex = b * 4 := rfl

theorem registerAll_append (p : D3D9HLSLProgram)
    (l1 l2 : List (OgreString × D3DXCONSTANT_DESC)) :
    registerAll p (l1 ++ l2) = registerAll (registerAll p l1) l2 := by
  simp [registerAll, List.foldl_append]

theorem sum_leafUses (b : Nat) (l : List (OgreString × D3DXCONSTANT_DESC)) :
    ((leafUses b l).map (fun e => e.2.currentSize)).sum = sizeSum l := by
  induction l generalizing b with
  | nil => rfl
  | cons e t ih =>
    simp only [leafUses, List.map_cons, List.sum_cons, sizeSum] at ih ⊢
    rw [ih]
    rfl

/-! ## Lemmas: splitting a space-separated list -/

theorem firstSupported_eq_find (sup : OgreString → Bool) (l : List OgreString) :
    firstSupported sup l = l.find? sup := by
  induction l with
  | nil => rfl
  | cons a t ih =>
    by_cases h : sup a = true
    · simp [firstSupported, List.find?, h]
    · simp [firstSupported, List.find?, h, ih]

theorem splitRuns_run (delims cur n rest : OgreString) (h : ∀ c ∈ n, c ∉ delims) :
    splitRuns delims cur (n ++ rest) = splitRuns delims (cur ++ n) rest := by
  induction n generalizing cur with
  | nil => simp
  | cons c t ih =>
    have hc : c ∉ delims := h c (List.mem_cons_self _ _)
    simp only [List.cons_append, splitRuns, if_neg hc]
    show splitRuns delims (cur ++ [c]) (t ++ rest) = _
    rw [ih _ (fun x hx => h x (List.mem_cons_of_mem _ hx))]
    simp

theorem splitRuns_spaceSeparated (names : List OgreString) (hne : names ≠ [])
    (hn : ∀ n ∈ names, n ≠ [] ∧ (32 : Byte) ∉ n) :
    splitRuns (lit " ") [] (spaceSeparated names) = names := by
  have hl : lit " " = [32] := by decide
  rw [hl]
  induction names with
  | nil => exact absurd rfl hne
  | cons a t ih =>
    have ha := hn a (List.mem_cons_self _ _)
    have hrun : ∀ c ∈ a, c ∉ ([32] : OgreString) := by
      intro c hc hmem
      rw [List.mem_singleton] at hmem
      exact ha.2 (hmem ▸ hc)
    have hae : a.isEmpty = false := by
      cases a with
      | nil => exact absurd rfl ha.1
      | cons _ _ => rfl
    cases t with
    | nil =>
      have := splitRuns_run [32] [] a [] hrun
      simp only [List.append_nil, List.nil_append] at this
      simp only [spaceSeparated, this, splitRuns, hae]
      simp
    | cons b t2 =>
      have := splitRuns_run [32] [] a ([32] ++ spaceSeparated (b :: t2)) hrun
      simp only [List.nil_append] at this
      have ih2 := ih (by simp) (fun n hmem => hn n (List.mem_cons_of_mem _ hmem))
      simp only [List.singleton_append] at this
      simp only [spaceSeparated, hl, List.append_assoc, List.singleton_append]
      rw [this]
      simp only [splitRuns, List.mem_singleton, if_true, hae, ih2]
      simp

theorem spaceSeparated_ne_nil (names : List OgreString) (hne : names ≠ [])
    (hn : ∀ n ∈ names, n ≠ [] ∧ (32 : Byte) ∉ n) : (spaceSeparated names).isEmpty = false := by
  cases names with
  | nil => exact absurd rfl hne
  | cons a t =>
    have ha := (hn a (List.mem_cons_self _ _)).1
    cases a with
    | nil => exact absurd rfl ha
    | cons c r =>
      cases t <;> simp [spaceSeparated]

theorem reachable_flattenedLightColor : Reachable flattenedLightColor :=
  Reachable.step D3D9HLSLProgram.init flattenedLightColor (Reachable.start _ rfl)
    (Step.flatten (.mk lightColorDesc []) [] _ _ (by decide))

/-! ## The properties of the specification -/

/-- Claim C1, cache round trip: for every microcode `m` and flat constant map `P` held
by a program (`m` and `P` within the ranges of their C++ types, the size estimate at
least the serialized size of `P`, which is what the walk leaves), decoding the record
that `addMicrocodeToCache` produces into a program whose parameter map is empty yields
the microcode `m` byte for byte and the parameter map `P`: the same keys and, under
every key, the same definition. -/
theorem cache_round_trip (src dst : D3D9HLSLProgram)
    (hmap : IsMap src.mParametersMap)
    (hm : src.mMicroCode.length < 2 ^ 64)
    (hn : src.mParametersMap.length < 2 ^ 64)
    (hr : ∀ e ∈ src.mParametersMap, e.1.length < 2 ^ 64 ∧ e.2.InRange)
    (hest : serializedSize src.mParametersMap ≤ src.mParametersMapSizeAsBuffer)
    (hdst : dst.mParametersMap = []) :
    (getMicrocodeFromCache (addMicrocodeToCache src) dst).mMicroCode = src.mMicroCode ∧
    (getMicrocodeFromCache (addMicrocodeToCache src) dst).mParametersMap
      = src.mParametersMap := by
  rw [addMicrocodeToCache_eq src hest]
  have hl := toBytesLE_length sizeofSizeT
  have e1 : ofBytesLE (toBytesLE sizeofSizeT src.mMicroCode.length) = src.mMicroCode.length :=
    ofBytesLE_toBytesLE _ _ (by simpa [sizeofSizeT] using hm)
  have e2 : ofBytesLE (toBytesLE sizeofSizeT src.mParametersMap.length)
      = src.mParametersMap.length :=
    ofBytesLE_toBytesLE _ _ (by simpa [sizeofSizeT] using hn)
  unfold getMicrocodeFromCache
  simp only []
  rw [read_append _ _ _ sizeofSizeT (hl _) (le_of_eq (hl _))]
  simp only [e1]
  rw [read_append _ src.mMicroCode _ _ rfl (by simp)]
  simp only []
  rw [read_append _ _ _ sizeofSizeT (hl _) (le_of_eq (hl _))]
  simp only [e2, true_and]
  rw [readParameters_encode _ _ _ (fun e he => (hr e he).1) (fun e he => (hr e he).2), hdst]
  exact foldl_emplace_sorted [] _ (by simpa using hmap)

/-- Witness for C1: a program with three bytes of microcode and two parameters. -/
theorem cache_round_trip_witness :
    (IsMap cachedProgram.mParametersMap ∧
      serializedSize cachedProgram.mParametersMap ≤ cachedProgram.mParametersMapSizeAsBuffer) ∧
    (getMicrocodeFromCache (addMicrocodeToCache cachedProgram) D3D9HLSLProgram.init).mMicroCode
      = [1, 2, 3] ∧
    (getMicrocodeFromCache (addMicrocodeToCache cachedProgram)
      D3D9HLSLProgram.init).mParametersMap = cachedProgram.mParametersMap :=
  ⟨⟨by unfold IsMap; decide, by decide⟩,
    cache_round_trip cachedProgram D3D9HLSLProgram.init (by unfold IsMap; decide) (by decide)
      (by decide) (by unfold GpuConstantDefinition.InRange; decide) (by decide) rfl⟩

/-- Counterexample to C2: a record that declares 5 bytes of microcode and holds 2 is
decoded without any failure: the program gets a microcode buffer of the declared 5
bytes, which starts with the 2 bytes that the stream holds. -/
theorem truncated_record_is_decoded :
    ofBytesLE (truncatedRecord.take sizeofSizeT) = 5 ∧
    (truncatedRecord.drop sizeofSizeT).length = 2 ∧
    (getMicrocodeFromCache truncatedRecord D3D9HLSLProgram.init).mMicroCode.length = 5 ∧
    (getMicrocodeFromCache truncatedRecord D3D9HLSLProgram.init).mMicroCode.take 2
      = [1, 2] := by
  decide

/-- Claim C2 as amended, truncated input: for every cached byte stream whose declared
microcode size exceeds the number of bytes that remain after the size field, and is
below `2^32` (the size parameter of `D3DXCreateBuffer` is a 32-bit `DWORD`), decoding
does not end in a decode error: with the buffer created (the result of the creation is
never tested), it leaves a microcode buffer of the declared size whose leading bytes
are the bytes that remain in the stream. Nothing is stated about the bytes after them,
about the parameter map, or about what the reads touch beyond the end of the
stream. -/
theorem truncated_decode (cacheMicrocode : List Byte) (p : D3D9HLSLProgram)
    (hlen : sizeofSizeT ≤ cacheMicrocode.length)
    (htrunc : cacheMicrocode.length - sizeofSizeT
      < ofBytesLE (cacheMicrocode.take sizeofSizeT))
    (_hdword : ofBytesLE (cacheMicrocode.take sizeofSizeT) < 2 ^ 32) :
    (getMicrocodeFromCache cacheMicrocode p).mMicroCode.length
      = ofBytesLE (cacheMicrocode.take sizeofSizeT) ∧
    (getMicrocodeFromCache cacheMicrocode p).mMicroCode.take
      (cacheMicrocode.length - sizeofSizeT) = cacheMicrocode.drop sizeofSizeT := by
  have hz : (toBytesLE sizeofSizeT 0).length = sizeofSizeT := toBytesLE_length _ _
  have r1 : DataStream.read (toBytesLE sizeofSizeT 0) sizeofSizeT cacheMicrocode
      = (cacheMicrocode.take sizeofSizeT, cacheMicrocode.drop sizeofSizeT) := by
    unfold DataStream.read
    simp only [Nat.min_eq_left hlen, List.drop_eq_nil_of_le (le_of_eq hz), List.append_nil]
  generalize hD : ofBytesLE (cacheMicrocode.take sizeofSizeT) = D at htrunc ⊢
  have hrem : (cacheMicrocode.drop sizeofSizeT).length = cacheMicrocode.length - sizeofSizeT :=
    List.length_drop _ _
  have r2 : DataStream.read (List.replicate D 0) D (cacheMicrocode.drop sizeofSizeT)
      = (cacheMicrocode.drop sizeofSizeT
          ++ List.replicate (D - (cacheMicrocode.length - sizeofSizeT)) 0, []) := by
    unfold DataStream.read
    simp only [hrem, Nat.min_eq_right (le_of_lt htrunc)]
    have h3 : List.drop D (List.drop sizeofSizeT cacheMicrocode) = [] :=
      List.drop_eq_nil_of_le (by rw [hrem]; exact le_of_lt htrunc)
    rw [List.take_of_length_le (le_of_eq hrem), List.drop_replicate, h3]
  unfold getMicrocodeFromCache
  simp only [r1, hD, r2]
  refine ⟨?_, ?_⟩
  · simp only [List.length_append, List.length_replicate, hrem]
    omega
  · rw [← hrem, List.take_left]

/-- Witness for C2 as amended: the record that declares 5 bytes and holds 2. -/
theorem truncated_decode_witness :
    (sizeofSizeT ≤ truncatedRecord.length ∧
      truncatedRecord.length - sizeofSizeT < ofBytesLE (truncatedRecord.take sizeofSizeT) ∧
      ofBytesLE (truncatedRecord.take sizeofSizeT) < 2 ^ 32) ∧
    (getMicrocodeFromCache truncatedRecord D3D9HLSLProgram.init).mMicroCode.length
      = ofBytesLE (truncatedRecord.take sizeofSizeT) ∧
    (getMicrocodeFromCache truncatedRecord D3D9HLSLProgram.init).mMicroCode.take
      (truncatedRecord.length - sizeofSizeT) = truncatedRecord.drop sizeofSizeT :=
  ⟨⟨by decide, by decide, by decide⟩,
    truncated_decode truncatedRecord D3D9HLSLProgram.init (by decide) (by decide)
      (by decide)⟩

/-- Claim C3, flattened names: for every constant table whose raw names are non-empty
(and in which no float matrix leaf has 0 elements, so that the division of `populateDef`
is defined), flattening it from an empty flat map and an empty name so far completes,
and the keys of the flat map are exactly the dotted names of the float/int/bool leaves
(structure nodes and leaves of other types contribute none); for a table with no
structure every key is the stripped raw name of a float/int/bool leaf; and when the
dotted names are pairwise distinct the map has one entry per such leaf. -/
theorem flatten_names (table : List ConstantNode) (p : D3D9HLSLProgram)
    (hne : namesNonEmptyList table = true)
    (_hdiv : ∀ e ∈ namedLeaves table, QuotientDefined e.2)
    (hp : p.mParametersMap = []) :
    ∃ q, flattenConstants table p = some q ∧
      (∀ k, k ∈ keys q.mParametersMap ↔ k ∈ dottedNames table) ∧
      ((∀ n ∈ table, n.desc.Class ≠ D3DXPC_STRUCT) →
        ∀ k, k ∈ keys q.mParametersMap ↔
          ∃ n ∈ table, isConstantType n.desc.Type_ = true ∧ k = strippedName n.desc.Name) ∧
      ((dottedNames table).Nodup → q.mParametersMap.length = (leavesOfList table).length) := by
  refine ⟨_, flattenConstants_eq table p hne, ?_⟩
  have hpar := registerAll_params p (namedLeaves table) (by rw [hp]; exact isMap_nil)
  rw [hp] at hpar
  have hkeys : ∀ k, k ∈ keys (registerAll p (namedLeaves table)).mParametersMap
      ↔ k ∈ dottedNames table := by
    intro k
    rw [hpar, mem_keys_emplaceAll, keys_leafDefs, namedLeaves_names]
    simp [keys]
  refine ⟨hkeys, ?_, ?_⟩
  · intro hflat k
    rw [hkeys]
    unfold dottedNames
    rw [List.mem_map]
    constructor
    · rintro ⟨al, hal, rfl⟩
      obtain ⟨n, hn, ht, rfl⟩ := (leavesOfList_flat table hflat al).1 hal
      exact ⟨n, hn, ht, rfl⟩
    · rintro ⟨n, hn, ht, rfl⟩
      exact ⟨([], n.desc), (leavesOfList_flat table hflat _).2 ⟨n, hn, ht, rfl⟩, rfl⟩
  · intro hnd
    rw [hpar, length_emplaceAll]
    · have : (leafDefs p.mLogicalToPhysical.bufferSize (namedLeaves table)).length
          = (keys (leafDefs p.mLogicalToPhysical.bufferSize (namedLeaves table))).length := by
        simp [keys]
      rw [this, keys_leafDefs]
      simp [namedLeaves]
    · rw [keys_leafDefs, namedLeaves_names]; exact hnd
    · intro a _ ha
      simp [keys] at ha

/-- Witness for C3: a table with a structure of two members, a sampler, a global vector
and a global matrix array. -/
theorem flatten_names_witness :
    (namesNonEmptyList sampleTable = true ∧
      ∀ e ∈ namedLeaves sampleTable, QuotientDefined e.2) ∧
    ∃ q, flattenConstants sampleTable D3D9HLSLProgram.init = some q ∧
      (∀ k, k ∈ keys q.mParametersMap ↔ k ∈ dottedNames sampleTable) ∧
      ((∀ n ∈ sampleTable, n.desc.Class ≠ D3DXPC_STRUCT) →
        ∀ k, k ∈ keys q.mParametersMap ↔
          ∃ n ∈ sampleTable, isConstantType n.desc.Type_ = true ∧ k = strippedName n.desc.Name) ∧
      ((dottedNames sampleTable).Nodup →
        q.mParametersMap.length = (leavesOfList sampleTable).length) :=
  ⟨⟨by decide, by unfold QuotientDefined; decide⟩,
    flatten_names sampleTable D3D9HLSLProgram.init (by decide)
      (by unfold QuotientDefined; decide) rfl⟩

/-- Claim C4, first occurrence wins: for every constant table as D3DX reports it (raw
names non-empty, no float matrix leaf with 0 elements, sizes within their C++ types, so
that flattening completes without a wrapped size) flattened from an empty flat map, and
every float/int/bool leaf `e` that is the first in traversal order with its dotted name
(`pre` are the leaves before it, `post` the leaves after it, which may repeat the
name), the flat map holds under that name the definition computed for `e`, and that is
the only entry under the name: later leaves neither replace it nor add one. -/
theorem first_occurrence_wins (table : List ConstantNode) (p : D3D9HLSLProgram)
    (hne : namesNonEmptyList table = true)
    (_hdiv : ∀ e ∈ namedLeaves table, QuotientDefined e.2)
    (_hrange : SizesInRange p.mLogicalToPhysical.bufferSize (namedLeaves table))
    (hp : p.mParametersMap = [])
    (pre post : List (OgreString × D3DXCONSTANT_DESC)) (e : OgreString × D3DXCONSTANT_DESC)
    (hsplit : namedLeaves table = pre ++ e :: post) (hfirst : e.1 ∉ pre.map Prod.fst) :
    ∃ q, flattenConstants table p = some q ∧
      find e.1 q.mParametersMap
        = some (leafDef e.2 (p.mLogicalToPhysical.bufferSize + sizeSum pre)) ∧
      q.mParametersMap.filter (fun x => decide (x.1 = e.1))
        = [(e.1, leafDef e.2 (p.mLogicalToPhysical.bufferSize + sizeSum pre))] := by
  refine ⟨_, flattenConstants_eq table p hne, ?_⟩
  have hpar := registerAll_params p (namedLeaves table) (by rw [hp]; exact isMap_nil)
  rw [hp] at hpar
  have hmap : IsMap (registerAll p (namedLeaves table)).mParametersMap := by
    rw [hpar]; exact emplaceAll_isMap _ _ isMap_nil
  have hfind : find e.1 (registerAll p (namedLeaves table)).mParametersMap
      = some (leafDef e.2 (p.mLogicalToPhysical.bufferSize + sizeSum pre)) := by
    rw [hpar, find_emplaceAll _ _ _ isMap_nil, List.nil_append, hsplit, leafDefs_append,
      find_append]
    have hnone : find e.1 (leafDefs p.mLogicalToPhysical.bufferSize pre) = none := by
      rw [find_eq_none_iff, keys_leafDefs]; exact hfirst
    rw [hnone]
    simp [leafDefs, find]
  exact ⟨hfind, filter_key_of_find _ _ _ (isMap_nodup_keys _ hmap) hfind⟩

/-- Witness for C4: two leaves, `$a` and `a`, with the dotted name `a`. -/
theorem first_occurrence_wins_witness :
    (namesNonEmptyList duplicateTable = true ∧
      (∀ e ∈ namedLeaves duplicateTable, QuotientDefined e.2) ∧
      SizesInRange 0 (namedLeaves duplicateTable) ∧
      namedLeaves duplicateTable
        = [] ++ (lit "a", vectorDesc "$a" 0 4) :: [(lit "a", vectorDesc "a" 1 2)]) ∧
    ∃ q, flattenConstants duplicateTable D3D9HLSLProgram.init = some q ∧
      find (lit "a") q.mParametersMap = some (leafDef (vectorDesc "$a" 0 4) (0 + sizeSum [])) ∧
      q.mParametersMap.filter (fun x => decide (x.1 = lit "a"))
        = [(lit "a", leafDef (vectorDesc "$a" 0 4) (0 + sizeSum []))] :=
  ⟨⟨by decide, by unfold QuotientDefined; decide, by unfold SizesInRange; decide,
      by decide⟩,
    first_occurrence_wins duplicateTable D3D9HLSLProgram.init (by decide)
      (by unfold QuotientDefined; decide) (by unfold SizesInRange; decide) rfl []
      [(lit "a", vectorDesc "a" 1 2)] (lit "a", vectorDesc "$a" 0 4) (by decide) (by decide)⟩

/-- Counterexample to C5: a float constant and an int constant with register index 0
are two leaves, and the logical-to-physical map ends with one entry. -/
theorem logical_entries_collide :
    (leavesOfList collidingTable).length = 2 ∧
    (flattenConstants collidingTable D3D9HLSLProgram.init).map
      (fun q => q.mLogicalToPhysical.map.length) = some 1 := by
  decide

/-- Claim C5 as amended, logical entries: for every constant table as D3DX reports it
(raw names non-empty, no float matrix leaf with 0 elements, sizes within their C++
types) flattened from an empty logical-to-physical map, the running physical buffer
size grows by `arraySize * elementSize` for every float/int/bool leaf; the keys of the
map are the register indices of these leaves; under each index the map holds the
offset and size computed for the first leaf with that index; and the number of entries
equals the number of leaves when the register indices are pairwise distinct, whether or
not leaf names collide. -/
theorem logical_entries (table : List ConstantNode) (p : D3D9HLSLProgram)
    (hne : namesNonEmptyList table = true)
    (_hdiv : ∀ e ∈ namedLeaves table, QuotientDefined e.2)
    (_hrange : SizesInRange p.mLogicalToPhysical.bufferSize (namedLeaves table))
    (hp : p.mLogicalToPhysical.map = []) :
    ∃ q, flattenConstants table p = some q ∧
      q.mLogicalToPhysical.bufferSize
        = p.mLogicalToPhysical.bufferSize + sizeSum (namedLeaves table) ∧
      (∀ i, i ∈ keys q.mLogicalToPhysical.map ↔
        i ∈ (namedLeaves table).map (fun e => e.2.RegisterIndex)) ∧
      (∀ pre e post, namedLeaves table = pre ++ e :: post →
        e.2.RegisterIndex ∉ pre.map (fun x => x.2.RegisterIndex) →
        find e.2.RegisterIndex q.mLogicalToPhysical.map
          = some (leafUse e.2 (p.mLogicalToPhysical.bufferSize + sizeSum pre))) ∧
      (((namedLeaves table).map (fun e => e.2.RegisterIndex)).Nodup →
        q.mLogicalToPhysical.map.length = (leavesOfList table).length) := by
  refine ⟨_, flattenConstants_eq table p hne, registerAll_bufferSize _ _, ?_⟩
  have hl2p := registerAll_l2p_map p (namedLeaves table)
  rw [hp] at hl2p
  refine ⟨?_, ?_, ?_⟩
  · intro i
    rw [hl2p, mem_keys_emplaceAll, keys_leafUses]
    simp [keys]
  · intro pre e post hsplit hfirst
    rw [hl2p, find_emplaceAll _ _ _ isMap_nil, List.nil_append, hsplit, leafUses_append,
      find_append]
    have hnone : find e.2.RegisterIndex (leafUses p.mLogicalToPhysical.bufferSize pre) = none := by
      rw [find_eq_none_iff, keys_leafUses]; exact hfirst
    rw [hnone]
    simp [leafUses, find]
  · intro hnd
    rw [hl2p, length_emplaceAll]
    · have : (leafUses p.mLogicalToPhysical.bufferSize (namedLeaves table)).length
          = (keys (leafUses p.mLogicalToPhysical.bufferSize (namedLeaves table))).length := by
        simp [keys]
      rw [this, keys_leafUses]
      simp [namedLeaves]
    · rw [keys_leafUses]; exact hnd
    · intro a _ ha
      simp [keys] at ha

/-- Witness for C5 as amended: the table with two constants at register index 0. -/
theorem logical_entries_witness :
    (namesNonEmptyList collidingTable = true ∧
      (∀ e ∈ namedLeaves collidingTable, QuotientDefined e.2) ∧
      SizesInRange 0 (namedLeaves collidingTable)) ∧
    ∃ q, flattenConstants collidingTable D3D9HLSLProgram.init = some q ∧
      q.mLogicalToPhysical.bufferSize = 0 + sizeSum (namedLeaves collidingTable) ∧
      (∀ i, i ∈ keys q.mLogicalToPhysical.map ↔
        i ∈ (namedLeaves collidingTable).map (fun e => e.2.RegisterIndex)) ∧
      (∀ pre e post, namedLeaves collidingTable = pre ++ e :: post →
        e.2.RegisterIndex ∉ pre.map (fun x => x.2.RegisterIndex) →
        find e.2.RegisterIndex q.mLogicalToPhysical.map
          = some (leafUse e.2 (0 + sizeSum pre))) ∧
      (((namedLeaves collidingTable).map (fun e => e.2.RegisterIndex)).Nodup →
        q.mLogicalToPhysical.map.length = (leavesOfList collidingTable).length) :=
  ⟨⟨by decide, by unfold QuotientDefined; decide, by unfold SizesInRange; decide⟩,
    logical_entries collidingTable D3D9HLSLProgram.init (by decide)
      (by unfold QuotientDefined; decide) (by unfold SizesInRange; decide) rfl⟩

/-- Counterexample to C7: with register count 24 and array length 2 the first
dimension is 12, no case matches, and the type of a fresh definition stays unset: it is
not `MATRIX_3X3`. -/
theorem matrix_array_example_differs :
    firstDimOf (matrixDesc D3DXPC_MATRIX_ROWS 3 3 2 24) = 12 ∧
    (populateDef (matrixDesc D3DXPC_MATRIX_ROWS 3 3 2 24) GpuConstantDefinition.init).constType
      = GCT_UNKNOWN ∧
    (populateDef (matrixDesc D3DXPC_MATRIX_ROWS 3 3 2 24) GpuConstantDefinition.init).constType
      ≠ GCT_MATRIX_3X3 := by
  decide

/-- Claim C7 as amended, worked example: for a float node of row-major matrix class
with 3 rows, 3 columns and array length 2, `populateDef` assigns type `MATRIX_3X3`,
element size 12 and array size 2 when the register count is 6 (3 registers per
element); when the register count is 24 the quotient 12 matches no case, the type is
left as it was, and the array size is 2. -/
theorem matrix_array_example (d : D3DXCONSTANT_DESC) (defn : GpuConstantDefinition)
    (ht : d.Type_ = D3DXPT_FLOAT) (hc : d.Class = D3DXPC_MATRIX_ROWS)
    (_hrows : d.Rows = 3) (hcols : d.Columns = 3) (he : d.Elements = 2) :
    ((populateDef { d with RegisterCount := 6 } defn).constType = GCT_MATRIX_3X3 ∧
      (populateDef { d with RegisterCount := 6 } defn).elementSize = 12 ∧
      (populateDef { d with RegisterCount := 6 } defn).arraySize = 2) ∧
    ((populateDef { d with RegisterCount := 24 } defn).constType = defn.constType ∧
      (populateDef { d with RegisterCount := 24 } defn).elementSize
        = getElementSize defn.constType ∧
      (populateDef { d with RegisterCount := 24 } defn).arraySize = 2) := by
  constructor
  · simp [populateDef, ht, hc, hcols, he, getElementSize]
  · simp [populateDef, ht, hc, hcols, he]

/-- Witness for C7 as amended: the 3x3 row-major array of length 2, in 6 registers and
in 24. -/
theorem matrix_array_example_witness :
    ((populateDef { matrixDesc D3DXPC_MATRIX_ROWS 3 3 2 0 with RegisterCount := 6 }
        GpuConstantDefinition.init).constType = GCT_MATRIX_3X3 ∧
      (populateDef { matrixDesc D3DXPC_MATRIX_ROWS 3 3 2 0 with RegisterCount := 6 }
        GpuConstantDefinition.init).elementSize = 12 ∧
      (populateDef { matrixDesc D3DXPC_MATRIX_ROWS 3 3 2 0 with RegisterCount := 6 }
        GpuConstantDefinition.init).arraySize = 2) ∧
    ((populateDef { matrixDesc D3DXPC_MATRIX_ROWS 3 3 2 0 with RegisterCount := 24 }
        GpuConstantDefinition.init).constType = GpuConstantDefinition.init.constType ∧
      (populateDef { matrixDesc D3DXPC_MATRIX_ROWS 3 3 2 0 with RegisterCount := 24 }
        GpuConstantDefinition.init).elementSize
        = getElementSize GpuConstantDefinition.init.constType ∧
      (populateDef { matrixDesc D3DXPC_MATRIX_ROWS 3 3 2 0 with RegisterCount := 24 }
        GpuConstantDefinition.init).arraySize = 2) :=
  matrix_array_example (matrixDesc D3DXPC_MATRIX_ROWS 3 3 2 0) GpuConstantDefinition.init
    rfl rfl rfl rfl rfl

/-- Claim C8, matrix type and row-based element size: for every float node of matrix
class (row-major or column-major) with `Elements > 0`, first dimension
`RegisterCount / Elements` in 2..4 and second dimension (`Columns` when row-major,
`Rows` when column-major) in 2..4, `populateDef` assigns the type
`MATRIX_<firstDim>X<secondDim>` and the element size 8, 12 or 16 for a first dimension
of 2, 3 or 4, whatever the second dimension and the array length; that size is the
padded per-type size of the assigned type. -/
theorem matrix_type_and_size (d : D3DXCONSTANT_DESC) (defn : GpuConstantDefinition)
    (ht : d.Type_ = D3DXPT_FLOAT)
    (hc : d.Class = D3DXPC_MATRIX_ROWS ∨ d.Class = D3DXPC_MATRIX_COLUMNS)
    (_he : 0 < d.Elements)
    (hf : firstDimOf d = 2 ∨ firstDimOf d = 3 ∨ firstDimOf d = 4)
    (hs : secondDimOf d = 2 ∨ secondDimOf d = 3 ∨ secondDimOf d = 4) :
    (populateDef d defn).constType = matrixType (firstDimOf d) (secondDimOf d) ∧
    (populateDef d defn).elementSize
      = (if firstDimOf d = 2 then 8 else if firstDimOf d = 3 then 12 else 16) ∧
    (populateDef d defn).elementSize = getElementSize (populateDef d defn).constType := by
  unfold firstDimOf at hf ⊢
  unfold secondDimOf at hs ⊢
  rcases hc with hc | hc <;> rcases hf with hf | hf | hf <;> rcases hs with hs | hs | hs <;>
    simp [hc] at hs <;>
    simp [populateDef, ht, hc, hf, hs, getElementSize, matrixType]

/-- Witness for C8: a column-major matrix array, 4 rows, 3 registers per element. -/
theorem matrix_type_and_size_witness :
    (0 < (matrixDesc D3DXPC_MATRIX_COLUMNS 4 3 2 6).Elements) ∧
    (populateDef (matrixDesc D3DXPC_MATRIX_COLUMNS 4 3 2 6) GpuConstantDefinition.init).constType
      = matrixType 3 4 ∧
    (populateDef (matrixDesc D3DXPC_MATRIX_COLUMNS 4 3 2 6) GpuConstantDefinition.init).elementSize
      = (if (3 : Nat) = 2 then 8 else if (3 : Nat) = 3 then 12 else 16) ∧
    (populateDef (matrixDesc D3DXPC_MATRIX_COLUMNS 4 3 2 6) GpuConstantDefinition.init).elementSize
      = getElementSize
        (populateDef (matrixDesc D3DXPC_MATRIX_COLUMNS 4 3 2 6) GpuConstantDefinition.init).constType :=
  ⟨by decide,
    matrix_type_and_size (matrixDesc D3DXPC_MATRIX_COLUMNS 4 3 2 6) GpuConstantDefinition.init
      rfl (Or.inr rfl) (by decide) (Or.inr (Or.inl (by decide))) (Or.inr (Or.inr (by decide)))⟩

/-- Counterexample to C9: a row-major matrix with first dimension 2 and second
dimension 4 gets element size 8, not 4 times the larger dimension (16). -/
theorem matrix_size_not_larger_dimension :
    firstDimOf (matrixDesc D3DXPC_MATRIX_ROWS 2 4 1 2) = 2 ∧
    secondDimOf (matrixDesc D3DXPC_MATRIX_ROWS 2 4 1 2) = 4 ∧
    (leafDef (matrixDesc D3DXPC_MATRIX_ROWS 2 4 1 2) 0).elementSize = 8 ∧
    (leafDef (matrixDesc D3DXPC_MATRIX_ROWS 2 4 1 2) 0).elementSize
      ≠ 4 * max (firstDimOf (matrixDesc D3DXPC_MATRIX_ROWS 2 4 1 2))
          (secondDimOf (matrixDesc D3DXPC_MATRIX_ROWS 2 4 1 2)) := by
  decide

/-- Claim C9 as amended, matrix element size: for every float matrix node whose two
dimensions are each in 2..4, the element size that flattening assigns is 4 times the
first dimension `RegisterCount / Elements` (8, 12 or 16), whatever the running buffer
size, the second dimension and the array length; it is 4 times the larger dimension
exactly when the second dimension does not exceed the first. -/
theorem matrix_size_by_first_dimension (d : D3DXCONSTANT_DESC) (bufferSize : Nat)
    (ht : d.Type_ = D3DXPT_FLOAT)
    (hc : d.Class = D3DXPC_MATRIX_ROWS ∨ d.Class = D3DXPC_MATRIX_COLUMNS)
    (hf : firstDimOf d = 2 ∨ firstDimOf d = 3 ∨ firstDimOf d = 4)
    (hs : secondDimOf d = 2 ∨ secondDimOf d = 3 ∨ secondDimOf d = 4) :
    (leafDef d bufferSize).elementSize = 4 * firstDimOf d ∧
    ((leafDef d bufferSize).elementSize = 4 * max (firstDimOf d) (secondDimOf d)
      ↔ secondDimOf d ≤ firstDimOf d) := by
  have hsize : (leafDef d bufferSize).elementSize = 4 * firstDimOf d := by
    unfold firstDimOf at hf ⊢
    unfold secondDimOf at hs
    rcases hc with hc | hc <;> rcases hf with hf | hf | hf <;> rcases hs with hs | hs | hs <;>
      simp [hc] at hs <;>
      simp [leafDef, populateDef, ht, hc, hf, hs, getElementSize]
  refine ⟨hsize, ?_⟩
  rw [hsize]
  constructor
  · intro h
    have : firstDimOf d = max (firstDimOf d) (secondDimOf d) := by omega
    rw [this]
    exact le_max_right _ _
  · intro h
    rw [max_eq_left h]

/-- Witness for C9 as amended: a 2x4 row-major matrix array of length 5. -/
theorem matrix_size_by_first_dimension_witness :
    (leafDef (matrixDesc D3DXPC_MATRIX_ROWS 2 4 5 10) 7).elementSize
        = 4 * firstDimOf (matrixDesc D3DXPC_MATRIX_ROWS 2 4 5 10) ∧
    ((leafDef (matrixDesc D3DXPC_MATRIX_ROWS 2 4 5 10) 7).elementSize
        = 4 * max (firstDimOf (matrixDesc D3DXPC_MATRIX_ROWS 2 4 5 10))
            (secondDimOf (matrixDesc D3DXPC_MATRIX_ROWS 2 4 5 10))
      ↔ secondDimOf (matrixDesc D3DXPC_MATRIX_ROWS 2 4 5 10)
          ≤ firstDimOf (matrixDesc D3DXPC_MATRIX_ROWS 2 4 5 10)) :=
  matrix_size_by_first_dimension (matrixDesc D3DXPC_MATRIX_ROWS 2 4 5 10) 7 rfl (Or.inl rfl)
    (Or.inl (by decide)) (Or.inr (Or.inr (by decide)))

/-- Claim C10, scalar and vector types: for every node of scalar or vector class, of
type float or int, with 1 to 4 columns, `populateDef` assigns `FLOAT<c>` when the type
is float and `INT<c>` when it is int, and sets the array size to the element count. -/
theorem scalar_vector_type (d : D3DXCONSTANT_DESC) (defn : GpuConstantDefinition)
    (hc : d.Class = D3DXPC_SCALAR ∨ d.Class = D3DXPC_VECTOR)
    (ht : d.Type_ = D3DXPT_FLOAT ∨ d.Type_ = D3DXPT_INT)
    (hcol : d.Columns = 1 ∨ d.Columns = 2 ∨ d.Columns = 3 ∨ d.Columns = 4) :
    (populateDef d defn).constType
      = (if d.Type_ = D3DXPT_FLOAT then floatType d.Columns else intType d.Columns) ∧
    (populateDef d defn).arraySize = d.Elements := by
  rcases hc with hc | hc <;> rcases ht with ht | ht <;>
    rcases hcol with hcol | hcol | hcol | hcol <;>
    simp [populateDef, hc, ht, hcol, floatType, intType]

/-- Witness for C10: an int vector of 3 columns and 5 elements. -/
theorem scalar_vector_type_witness :
    (populateDef { vectorDesc "v" 0 3 with Type_ := D3DXPT_INT, Elements := 5 }
        GpuConstantDefinition.init).constType
      = (if D3DXPT_INT = D3DXPT_FLOAT then floatType 3 else intType 3) ∧
    (populateDef { vectorDesc "v" 0 3 with Type_ := D3DXPT_INT, Elements := 5 }
        GpuConstantDefinition.init).arraySize = 5 :=
  scalar_vector_type { vectorDesc "v" 0 3 with Type_ := D3DXPT_INT, Elements := 5 }
    GpuConstantDefinition.init (Or.inr rfl) (Or.inr rfl) (Or.inr (Or.inr (Or.inl rfl)))

/-- Claim C11, logical index and physical offset: for every constant table as D3DX
reports it (raw names non-empty, no float matrix leaf with 0 elements, sizes within
their C++ types, so that flattening completes without a wrapped size) and every
float/int/bool leaf `e` of it, with `pre` the float/int/bool leaves before it in
traversal order and `post` those after it: the leaf is processed in the state reached after `pre`, whose running physical
buffer size is the size at the start plus the sum of `arraySize * elementSize` over
`pre` (structures and sampler or texture leaves add nothing); the definition computed
there has the leaf's register index as logical index and 4 times that running size as
physical index; and it is the definition stored when the name is not yet a key. -/
theorem logical_index_and_offset (table : List ConstantNode) (p : D3D9HLSLProgram)
    (hne : namesNonEmptyList table = true)
    (_hdiv : ∀ e ∈ namedLeaves table, QuotientDefined e.2)
    (_hrange : SizesInRange p.mLogicalToPhysical.bufferSize (namedLeaves table))
    (pre post : List (OgreString × D3DXCONSTANT_DESC)) (e : OgreString × D3DXCONSTANT_DESC)
    (hsplit : namedLeaves table = pre ++ e :: post) :
    flattenConstants table p
      = some (registerAll (processConstant e.1 e.2 (registerAll p pre)) post) ∧
    (registerAll p pre).mLogicalToPhysical.bufferSize
      = p.mLogicalToPhysical.bufferSize + sizeSum pre ∧
    (leafDef e.2 (registerAll p pre).mLogicalToPhysical.bufferSize).logicalIndex
      = e.2.RegisterIndex ∧
    (leafDef e.2 (registerAll p pre).mLogicalToPhysical.bufferSize).physicalIndex
      = 4 * (p.mLogicalToPhysical.bufferSize + sizeSum pre) ∧
    (find e.1 (registerAll p pre).mParametersMap = none →
      find e.1 (processConstant e.1 e.2 (registerAll p pre)).mParametersMap
        = some (leafDef e.2 (registerAll p pre).mLogicalToPhysical.bufferSize)) := by
  have hb : (registerAll p pre).mLogicalToPhysical.bufferSize
      = p.mLogicalToPhysical.bufferSize + sizeSum pre := registerAll_bufferSize p pre
  refine ⟨?_, hb, leafDef_logicalIndex _ _, ?_, ?_⟩
  · rw [flattenConstants_eq table p hne, hsplit, registerAll_append, registerAll_cons]
  · rw [leafDef_physicalIndex, hb]; omega
  · intro hf
    unfold processConstant
    simp only [hf, if_true]
    rw [find_emplace_of_not_mem _ _ _ _ ((find_eq_none_iff _ _).1 hf), find_append, hf]
    simp [find]

/-- Witness for C11: the vector `$lightColor` of the sample table, after a structure
with two leaves and a sampler, before a matrix array. -/
theorem logical_index_and_offset_witness :
    (namesNonEmptyList sampleTable = true ∧
      (∀ e ∈ namedLeaves sampleTable, QuotientDefined e.2) ∧
      SizesInRange 0 (namedLeaves sampleTable) ∧
      namedLeaves sampleTable
        = [(lit "light.position", vectorDesc "position" 0 3),
            (lit "light.color", vectorDesc "color[0]" 1 4)]
          ++ (lit "lightColor", vectorDesc "$lightColor" 3 4) :: [(lit "bones", bonesDesc)]) ∧
    (leafDef (vectorDesc "$lightColor" 3 4) 8).logicalIndex = 3 ∧
    (leafDef (vectorDesc "$lightColor" 3 4) 8).physicalIndex = 32 ∧
    (flattenConstants sampleTable D3D9HLSLProgram.init).map
      (fun q => find (lit "lightColor") q.mParametersMap)
      = some (some (leafDef (vectorDesc "$lightColor" 3 4) 8)) :=
  have h := logical_index_and_offset sampleTable D3D9HLSLProgram.init (by decide)
    (by unfold QuotientDefined; decide) (by unfold SizesInRange; decide)
    [(lit "light.position", vectorDesc "position" 0 3),
      (lit "light.color", vectorDesc "color[0]" 1 4)]
    [(lit "bones", bonesDesc)] (lit "lightColor", vectorDesc "$lightColor" 3 4) (by decide)
  ⟨⟨by decide, by unfold QuotientDefined; decide, by unfold SizesInRange; decide,
      by decide⟩, h.2.2.1, by decide, by decide⟩

/-- Claim C12, target selection: for every target string that is a space-separated
list of at least one profile name (each name non-empty and without a space),
`setTarget` sets the target to the first listed profile that the program manager
reports as supported and, when none of the listed profiles is supported, to the first
listed profile. -/
theorem target_selection (isSyntaxSupported : OgreString → Bool) (names : List OgreString)
    (hne : names ≠ []) (hn : ∀ n ∈ names, n ≠ [] ∧ (32 : Byte) ∉ n) :
    setTarget isSyntaxSupported (spaceSeparated names)
      = (match names.find? isSyntaxSupported with
          | some currentProfile => some currentProfile
          | none => names.head?) ∧
    (setTarget isSyntaxSupported (spaceSeparated names)).isSome = true := by
  have hs : StringUtil.split (spaceSeparated names) (lit " ") = names := by
    unfold StringUtil.split
    rw [spaceSeparated_ne_nil names hne hn]
    exact splitRuns_spaceSeparated names hne hn
  have h1 : setTarget isSyntaxSupported (spaceSeparated names)
      = (match names.find? isSyntaxSupported with
          | some currentProfile => some currentProfile
          | none => names.head?) := by
    unfold setTarget
    simp only [hs, firstSupported_eq_find]
  refine ⟨h1, ?_⟩
  rw [h1]
  cases hf : names.find? isSyntaxSupported with
  | some n => rfl
  | none =>
    cases names with
    | nil => exact absurd rfl hne
    | cons a t => rfl

/-- Witness for C12: of `vs_3_0 ps_3_0 ps_2_0` a manager that supports only `ps_3_0`
gets `ps_3_0`. -/
theorem target_selection_witness :
    (sampleProfiles ≠ [] ∧ ∀ n ∈ sampleProfiles, n ≠ [] ∧ (32 : Byte) ∉ n) ∧
    setTarget supportsPs30 (lit "vs_3_0 ps_3_0 ps_2_0") = some (lit "ps_3_0") ∧
    setTarget (fun _ => false) (lit "vs_3_0 ps_3_0 ps_2_0") = some (lit "vs_3_0") :=
  ⟨⟨by decide, by decide⟩,
    (target_selection supportsPs30 sampleProfiles (by decide) (by decide)).1.trans (by decide),
    (target_selection (fun _ => false) sampleProfiles (by decide) (by decide)).1.trans
      (by decide)⟩

/-- Counterexample to C13: after the walk over the `$lightColor` table and one call of
`buildConstantDefinitions`, a reachable state, the buffer size is 8 and the one entry
of the map has size 4. -/
theorem buffer_size_exceeds_entries :
    Reachable (buildConstantDefinitions flattenedLightColor) ∧
    (buildConstantDefinitions flattenedLightColor).mLogicalToPhysical.bufferSize = 8 ∧
    entriesSize (buildConstantDefinitions flattenedLightColor).mLogicalToPhysical = 4 :=
  ⟨Reachable.step _ _ reachable_flattenedLightColor (Step.build _), by decide, by decide⟩

/-- Claim C13 as amended, buffer size and entries: in every state reachable from an
empty logical-to-physical structure by flatten steps and `buildConstantDefinitions`
calls, the physical buffer size is at least the sum of the sizes of the entries held in
the map, and no step decreases the buffer size or removes an entry; the buffer size
equals the sum of the entries after flattening a table from the empty structure when
the register indices of its float/int/bool leaves are pairwise distinct. -/
theorem buffer_size_covers_entries (p q : D3D9HLSLProgram) (hp : Reachable p)
    (hs : Step p q) :
    entriesSize p.mLogicalToPhysical ≤ p.mLogicalToPhysical.bufferSize ∧
    entriesSize q.mLogicalToPhysical ≤ q.mLogicalToPhysical.bufferSize ∧
    p.mLogicalToPhysical.bufferSize ≤ q.mLogicalToPhysical.bufferSize ∧
    (∀ e ∈ p.mLogicalToPhysical.map, e ∈ q.mLogicalToPhysical.map) ∧
    (∀ (table : List ConstantNode) (p0 q0 : D3D9HLSLProgram),
      p0.mLogicalToPhysical = { map := [], bufferSize := 0 } →
      flattenConstants table p0 = some q0 →
      ((namedLeaves table).map (fun e => e.2.RegisterIndex)).Nodup →
      q0.mLogicalToPhysical.bufferSize = entriesSize q0.mLogicalToPhysical) := by
  have hg := grows_step p q hs
  refine ⟨reachable_entriesSize p hp, reachable_entriesSize q (Reachable.step p q hp hs),
    hg.2.1, hg.2.2, ?_⟩
  intro table p0 q0 h0 hq hnd
  have hq0 : q0 = registerAll p0 (namedLeaves table) := by
    have := processMembers_some table [] p0 q0 hq
    simpa [namedLeaves] using this
  rw [hq0, registerAll_bufferSize]
  unfold entriesSize
  rw [registerAll_l2p_map, h0, sum_map_emplaceAll, sum_leafUses]
  · simp [sizeSum]
  · rw [keys_leafUses]; exact hnd
  · intro a _ ha
    simp [keys] at ha

/-- Witness for C13 as amended: the flatten step from a new program to the program with
`$lightColor` registered. -/
theorem buffer_size_covers_entries_witness :
    (Reachable D3D9HLSLProgram.init ∧ Step D3D9HLSLProgram.init flattenedLightColor) ∧
    entriesSize D3D9HLSLProgram.init.mLogicalToPhysical
      ≤ D3D9HLSLProgram.init.mLogicalToPhysical.bufferSize ∧
    entriesSize flattenedLightColor.mLogicalToPhysical
      ≤ flattenedLightColor.mLogicalToPhysical.bufferSize ∧
    D3D9HLSLProgram.init.mLogicalToPhysical.bufferSize
      ≤ flattenedLightColor.mLogicalToPhysical.bufferSize ∧
    (∀ e ∈ D3D9HLSLProgram.init.mLogicalToPhysical.map,
      e ∈ flattenedLightColor.mLogicalToPhysical.map) ∧
    (∀ (table : List ConstantNode) (p0 q0 : D3D9HLSLProgram),
      p0.mLogicalToPhysical = { map := [], bufferSize := 0 } →
      flattenConstants table p0 = some q0 →
      ((namedLeaves table).map (fun e => e.2.RegisterIndex)).Nodup →
      q0.mLogicalToPhysical.bufferSize = entriesSize q0.mLogicalToPhysical) :=
  ⟨⟨Reachable.start _ rfl, Step.flatten (.mk lightColorDesc []) [] _ _ (by decide)⟩,
    buffer_size_covers_entries D3D9HLSLProgram.init flattenedLightColor (Reachable.start _ rfl)
      (Step.flatten (.mk lightColorDesc []) [] _ _ (by decide))⟩

/-- Claim C14, pre-computed cache buffer size: for every constant table (raw names
non-empty, no float matrix leaf with 0 elements, so that flattening completes)
flattened into a program whose parameter map is empty and whose serialized-size
estimate is 0, the estimate afterwards is the sum over the flat map's
entries of `sizeof(size_t)` + name length + `sizeof(GpuConstantDefinition)`; so the
buffer that `addMicrocodeToCache` allocates (two size fields + microcode length +
estimate) holds exactly the bytes it writes: nothing is cut and nothing is left
unwritten. -/
theorem estimate_is_exact (table : List ConstantNode) (p : D3D9HLSLProgram)
    (hne : namesNonEmptyList table = true)
    (_hdiv : ∀ e ∈ namedLeaves table, QuotientDefined e.2)
    (hp : p.mParametersMap = [])
    (he : p.mParametersMapSizeAsBuffer = 0) :
    ∃ q, flattenConstants table p = some q ∧
      q.mParametersMapSizeAsBuffer = serializedSize q.mParametersMap ∧
      addMicrocodeToCache q
        = toBytesLE sizeofSizeT q.mMicroCode.length ++ (q.mMicroCode ++
            (toBytesLE sizeofSizeT q.mParametersMap.length
              ++ encodeParameters q.mParametersMap)) ∧
      (addMicrocodeToCache q).length
        = sizeofSizeT + q.mMicroCode.length + sizeofSizeT + q.mParametersMapSizeAsBuffer := by
  refine ⟨_, flattenConstants_eq table p hne, ?_⟩
  have hest := registerAll_estimate p (namedLeaves table) (by rw [he, hp]; rfl)
  have henc := addMicrocodeToCache_eq (registerAll p (namedLeaves table)) (le_of_eq hest.symm)
  rw [hest, Nat.sub_self] at henc
  simp only [List.replicate_zero, List.append_nil] at henc
  refine ⟨hest, henc, ?_⟩
  rw [henc, hest]
  simp only [List.length_append, toBytesLE_length, encodeParameters_length]
  omega

/-- Witness for C14: the table in which two leaves have the dotted name `a`. -/
theorem estimate_is_exact_witness :
    (namesNonEmptyList duplicateTable = true ∧
      ∀ e ∈ namedLeaves duplicateTable, QuotientDefined e.2) ∧
    ∃ q, flattenConstants duplicateTable D3D9HLSLProgram.init = some q ∧
      q.mParametersMapSizeAsBuffer = serializedSize q.mParametersMap ∧
      addMicrocodeToCache q
        = toBytesLE sizeofSizeT q.mMicroCode.length ++ (q.mMicroCode ++
            (toBytesLE sizeofSizeT q.mParametersMap.length
              ++ encodeParameters q.mParametersMap)) ∧
      (addMicrocodeToCache q).length
        = sizeofSizeT + q.mMicroCode.length + sizeofSizeT + q.mParametersMapSizeAsBuffer :=
  ⟨⟨by decide, by unfold QuotientDefined; decide⟩,
    estimate_is_exact duplicateTable D3D9HLSLProgram.init (by decide)
      (by unfold QuotientDefined; decide) rfl rfl⟩

set_option maxRecDepth 100000 in
/-- Claim C15 at the table of the worked example (one float4 leaf, so names and
logical indices are pairwise distinct): the fresh-compile path and the cache-hit path
end with the same named constant definitions and the same logical-to-physical entries,
and with different buffer sizes: 8 against 4 in the logical-to-physical structure, 4
against 0 in the constant definitions. -/
theorem cache_hit_differs_from_compile :
    (compilePath [.mk lightColorDesc []]).map (fun q => q.mConstantDefs.map)
      = (cachePath [.mk lightColorDesc []]).map (fun q => q.mConstantDefs.map) ∧
    (compilePath [.mk lightColorDesc []]).map (fun q => q.mLogicalToPhysical.map)
      = (cachePath [.mk lightColorDesc []]).map (fun q => q.mLogicalToPhysical.map) ∧
    (compilePath [.mk lightColorDesc []]).map (fun q => q.mLogicalToPhysical.bufferSize)
      = some 8 ∧
    (cachePath [.mk lightColorDesc []]).map (fun q => q.mLogicalToPhysical.bufferSize)
      = some 4 ∧
    (compilePath [.mk lightColorDesc []]).map (fun q => q.mConstantDefs.bufferSize)
      = some 4 ∧
    (cachePath [.mk lightColorDesc []]).map (fun q => q.mConstantDefs.bufferSize)
      = some 0 := by
  decide

end Ogre
